import Mathlib

set_option maxRecDepth 100000

/-!
# Guess-Senpai daily puzzle engine — verification of the specification's claims

Shallow embedding of `apps/api/src/app/puzzles/engine.py` (plus the
round-pool allocator in `apps/api/src/app/services/character_pool.py` and the
candidate-pool data model of `apps/api/src/app/services/anilist.py`),
together with proofs and refutations of the specification's claims about it.

Modelling conventions, applied uniformly:
* Python `int` is `Nat` (all integers in play are non-negative ids, counts and
  indices); Python `float` ratios are modelled as exact rationals `ℚ`.
* Python `str` is `String`; optional fields are `Option String`, and Python
  truthiness of a string (`if s:`) is `pyTruthy` (`none` and `""` are falsy).
* Python `set[int]` is a duplicate-free `List Nat` grown with `insertNew`;
  only membership is ever observed, so the representation order is irrelevant.
* `hashlib.sha256` is implemented concretely (FIPS 180-4 over byte lists), so
  the selector is fully executable; `random.Random(seed).shuffle` (Mersenne
  Twister, CPython standard library) is kept as an explicit function parameter
  `shuffle`, with theorems assuming at most that it permutes its input.
* Async collaborators that only perform I/O (`_load_media_details`,
  `_build_guess_opening_round`, the history repository) are function
  parameters of the assembler; the engine's own logic is embedded verbatim.
-/

namespace GuessSenpai

/-! ## Python-truthiness helpers -/

/-- Truthiness of an optional Python string: `None` and `""` are falsy. -/
def pyTruthy : Option String → Bool
  | none => false
  | some s => s ≠ ""

/-- Python `a or b` on optional strings: the first truthy operand, else `b`. -/
def pyOr (a b : Option String) : Option String :=
  if pyTruthy a then a else b

/-- First truthy string of a list, or `""` (Python `a or b or ""`). -/
def firstTruthy : List (Option String) → String
  | [] => ""
  | a :: rest => if pyTruthy a then a.getD "" else firstTruthy rest

/-- Python `set.add` on a duplicate-free list: insert if absent. -/
def insertNew (x : Nat) (l : List Nat) : List Nat :=
  if x ∈ l then l else x :: l

/-! ## SHA-256 (`hashlib.sha256`), FIPS 180-4, over byte lists -/

/-- Truncation to 32 bits. -/
def m32 (n : Nat) : Nat := n % 4294967296

/-- Right rotation of a 32-bit word. -/
def rotr32 (x n : Nat) : Nat := m32 ((x >>> n) ||| (x <<< (32 - n)))

def bigSigma0 (x : Nat) : Nat := rotr32 x 2 ^^^ rotr32 x 13 ^^^ rotr32 x 22
def bigSigma1 (x : Nat) : Nat := rotr32 x 6 ^^^ rotr32 x 11 ^^^ rotr32 x 25
def smallSigma0 (x : Nat) : Nat := rotr32 x 7 ^^^ rotr32 x 18 ^^^ (x >>> 3)
def smallSigma1 (x : Nat) : Nat := rotr32 x 17 ^^^ rotr32 x 19 ^^^ (x >>> 10)
def chF (x y z : Nat) : Nat := (x &&& y) ^^^ ((x ^^^ 4294967295) &&& z)
def majF (x y z : Nat) : Nat := (x &&& y) ^^^ (x &&& z) ^^^ (y &&& z)

/-- The 64 SHA-256 round constants. -/
def shaK : List Nat :=
  [1116352408, 1899447441, 3049323471, 3921009573, 961987163,
   1508970993, 2453635748, 2870763221, 3624381080, 310598401,
   607225278, 1426881987, 1925078388, 2162078206, 2614888103,
   3248222580, 3835390401, 4022224774, 264347078, 604807628,
   770255983, 1249150122, 1555081692, 1996064986, 2554220882,
   2821834349, 2952996808, 3210313671, 3336571891, 3584528711,
   113926993, 338241895, 666307205, 773529912, 1294757372,
   1396182291, 1695183700, 1986661051, 2177026350, 2456956037,
   2730485921, 2820302411, 3259730800, 3345764771, 3516065817,
   3600352804, 4094571909, 275423344, 430227734, 506948616,
   659060556, 883997877, 958139571, 1322822218, 1537002063,
   1747873779, 1955562222, 2024104815, 2227730452, 2361852424,
   2428436474, 2756734187, 3204031479, 3329325298]

/-- The SHA-256 initial hash value. -/
def shaH0 : List Nat :=
  [1779033703, 3144134277, 1013904242, 2773480762,
   1359893119, 2600822924, 528734635, 1541459225]

/-- `k` bytes of `v`, most significant first. -/
def beBytes : Nat → Nat → List Nat
  | 0, _ => []
  | k + 1, v => beBytes k (v / 256) ++ [v % 256]

/-- A big-endian word from its bytes. -/
def beWord (bs : List Nat) : Nat := bs.foldl (fun acc b => acc * 256 + b) 0

/-- Split a list into consecutive chunks of `n + 1` elements; the `fuel`
argument (instantiated with the list's length, which suffices because every
step consumes at least one element) keeps the recursion structural so that
the kernel can evaluate it. -/
def chunksOfAux (n : Nat) : Nat → List Nat → List (List Nat)
  | 0, _ => []
  | _, [] => []
  | fuel + 1, x :: xs => (x :: xs).take (n + 1) :: chunksOfAux n fuel (xs.drop n)

/-- Split a list into consecutive chunks of `n + 1` elements. -/
def chunksOf (n : Nat) (l : List Nat) : List (List Nat) :=
  chunksOfAux n l.length l

/-- SHA-256 padding: `0x80`, zeros to 56 mod 64, 8-byte big-endian bit length. -/
def sha256Pad (msg : List Nat) : List Nat :=
  msg ++ [0x80] ++ List.replicate ((119 - msg.length % 64) % 64) 0
      ++ beBytes 8 (msg.length * 8)

/-- Extend a 16-word block to the 64-word message schedule (`k` rounds left). -/
def extendSchedule : Nat → List Nat → List Nat
  | 0, w => w
  | k + 1, w =>
    let n := w.length
    let word := m32 (w.getD (n - 16) 0 + smallSigma0 (w.getD (n - 15) 0)
        + w.getD (n - 7) 0 + smallSigma1 (w.getD (n - 2) 0))
    extendSchedule k (w ++ [word])

/-- The eight working variables of the compression loop. -/
structure ShaState where
  a : Nat
  b : Nat
  c : Nat
  d : Nat
  e : Nat
  f : Nat
  g : Nat
  h : Nat

/-- One round of the SHA-256 compression loop. -/
def compressStep (st : ShaState) (kw : Nat × Nat) : ShaState :=
  let t1 := m32 (st.h + bigSigma1 st.e + chF st.e st.f st.g + kw.1 + kw.2)
  let t2 := m32 (bigSigma0 st.a + majF st.a st.b st.c)
  ⟨m32 (t1 + t2), st.a, st.b, st.c, m32 (st.d + t1), st.e, st.f, st.g⟩

/-- Compress one 64-byte chunk into the running hash value. -/
def compressChunk (hs : List Nat) (chunk : List Nat) : List Nat :=
  let w := extendSchedule 48 ((chunksOf 3 chunk).map beWord)
  let init : ShaState :=
    ⟨hs.getD 0 0, hs.getD 1 0, hs.getD 2 0, hs.getD 3 0,
     hs.getD 4 0, hs.getD 5 0, hs.getD 6 0, hs.getD 7 0⟩
  let s := (shaK.zip w).foldl compressStep init
  [m32 (hs.getD 0 0 + s.a), m32 (hs.getD 1 0 + s.b), m32 (hs.getD 2 0 + s.c),
   m32 (hs.getD 3 0 + s.d), m32 (hs.getD 4 0 + s.e), m32 (hs.getD 5 0 + s.f),
   m32 (hs.getD 6 0 + s.g), m32 (hs.getD 7 0 + s.h)]

/-- The SHA-256 digest (32 bytes) of a byte string. -/
def sha256 (msg : List Nat) : List Nat :=
  ((chunksOf 63 (sha256Pad msg)).foldl compressChunk shaH0).flatMap (beBytes 4)

/-- UTF-8 encoding of one character (`str.encode("utf-8")`). -/
def utf8EncodeChar (c : Char) : List Nat :=
  let n := c.toNat
  if n < 128 then [n]
  else if n < 2048 then [192 ||| (n >>> 6), 128 ||| (n &&& 63)]
  else if n < 65536 then
    [224 ||| (n >>> 12), 128 ||| ((n >>> 6) &&& 63), 128 ||| (n &&& 63)]
  else
    [240 ||| (n >>> 18), 128 ||| ((n >>> 12) &&& 63),
     128 ||| ((n >>> 6) &&& 63), 128 ||| (n &&& 63)]

/-- UTF-8 encoding of a string as a byte list. -/
def utf8Encode (s : String) : List Nat := s.data.flatMap utf8EncodeChar

/-- Lower-case hex character of a nibble. -/
def hexChar (n : Nat) : Char :=
  if n < 10 then Char.ofNat (48 + n) else Char.ofNat (87 + n)

/-- Two hex characters of a byte. -/
def byteHex (b : Nat) : List Char := [hexChar (b / 16), hexChar (b % 16)]

/-- `hashlib.sha256(bytes).hexdigest()` as a character list. -/
def sha256HexChars (msg : List Nat) : List Char :=
  (sha256 msg).flatMap byteHex

/-- Value of a lower-case hex character. -/
def hexCharVal (c : Char) : Nat :=
  if c.toNat ≤ 57 then c.toNat - 48 else c.toNat - 87

/-- `int(cs, 16)` for lower-case hex input. -/
def hexToNat (cs : List Char) : Nat :=
  cs.foldl (fun acc c => acc * 16 + hexCharVal c) 0

/-! ## Data model (`services/anilist.py`)

Pydantic models, restricted to the fields the puzzle engine's claims touch;
catalog fields never read by any claim (genres, tags, dates, cover images,
external links, …) are omitted from the embedding. -/

structure Title where
  romaji : Option String
  english : Option String
  native : Option String
  userPreferred : Option String
deriving DecidableEq

structure CharacterName where
  full : Option String
  native : Option String
  userPreferred : Option String
deriving DecidableEq

structure CharacterImage where
  large : Option String
  medium : Option String
deriving DecidableEq

structure Character where
  id : Nat
  name : CharacterName
  image : Option CharacterImage
deriving DecidableEq

structure MediaCharacterEdge where
  role : Option String
  node : Character
deriving DecidableEq

/-- A catalog media item.  `characters` models
`media.characters.edges`, with `[]` for both an absent `characters`
container and an empty edge list (the engine treats the two identically:
`if not media.characters or not media.characters.edges`). -/
structure Media where
  id : Nat
  title : Title
  synonyms : List String
  description : Option String
  characters : List MediaCharacterEdge
deriving DecidableEq

structure MediaListEntry where
  media : Media
deriving DecidableEq

structure MediaList where
  name : Option String
  status : Option String
  entries : List MediaListEntry
deriving DecidableEq

structure MediaListCollection where
  lists : List MediaList
deriving DecidableEq

/-! ## String helpers

Python's `str.strip` / `str.lower` / `re` whitespace and word classes are
modelled at ASCII fidelity (`\s` as the six ASCII space characters, `\w` as
ASCII alphanumerics plus underscore, case mapping on ASCII letters); every
theorem below is quantified over arbitrary strings, so only the boundary of
the character classes — not any engine logic — depends on this choice. -/

/-- Python `\s` (ASCII range): space, tab, newline, return, vtab, formfeed. -/
def isSpaceChar (c : Char) : Bool :=
  c = ' ' || c = '\t' || c = '\n' || c = '\r' || c = '\x0b' || c = '\x0c'

/-- Python `\w` (ASCII range): letters, digits, underscore. -/
def isWordChar (c : Char) : Bool :=
  c.isAlpha || c.isDigit || c = '_'

/-- ASCII lower-casing of one character. -/
def charLower (c : Char) : Char :=
  if 'A' ≤ c && c ≤ 'Z' then Char.ofNat (c.toNat + 32) else c

/-- ASCII upper-casing of one character. -/
def charUpper (c : Char) : Char :=
  if 'a' ≤ c && c ≤ 'z' then Char.ofNat (c.toNat - 32) else c

/-- `str.casefold()` / `str.lower()` at ASCII fidelity. -/
def lowerStr (s : String) : String := String.mk (s.data.map charLower)

/-- `str.strip()`: drop leading and trailing whitespace. -/
def pyStrip (s : String) : String :=
  String.mk (((s.data.dropWhile isSpaceChar).reverse.dropWhile isSpaceChar).reverse)

/-- `str.title()` for `_normalize_role`: first letter of every run of
letters upper-cased, the rest lower-cased (ASCII fidelity). -/
def titleCaseAux : Bool → List Char → List Char
  | _, [] => []
  | prev, c :: cs =>
    let cased := c.isAlpha
    let c' := if cased then (if prev then charLower c else charUpper c) else c
    c' :: titleCaseAux cased cs

def titleCase (s : String) : String := String.mk (titleCaseAux false s.data)

/-! ## `_strip_html` (engine.py 157-160)

`re.sub(r"<br\s*/?>", "\n", …)`, then `re.sub(r"<[^>]+>", " ", …)`, then
`html.unescape`.  The substitution scanners carry a fuel argument equal to
the input length so the recursion stays structural (every step consumes at
least one character, so the fuel never runs out on the real argument). -/

/-- Match `\s*/?>` (the tail of `<br\s*/?>`); returns the rest on success. -/
def matchBrTail (l : List Char) : Option (List Char) :=
  match l.dropWhile isSpaceChar with
  | '/' :: '>' :: rest => some rest
  | '>' :: rest => some rest
  | _ => none

/-- Match `<br\s*/?>` case-insensitively; returns the rest on success. -/
def matchBr : List Char → Option (List Char)
  | '<' :: b :: r :: rest =>
    if (b = 'b' || b = 'B') && (r = 'r' || r = 'R') then matchBrTail rest else none
  | _ => none

def brSubAux : Nat → List Char → List Char
  | 0, l => l
  | _, [] => []
  | fuel + 1, c :: rest =>
    match matchBr (c :: rest) with
    | some after => '\n' :: brSubAux fuel after
    | none => c :: brSubAux fuel rest

/-- `re.sub(r"<br\s*/?>", "\n", text, flags=re.IGNORECASE)`. -/
def brSub (l : List Char) : List Char := brSubAux l.length l

/-- Scan for the closing `>` of a tag; returns the rest on success. -/
def matchTagClose : List Char → Option (List Char)
  | [] => none
  | '>' :: rest => some rest
  | _ :: rest => matchTagClose rest

/-- Match `<[^>]+>`; returns the rest on success. -/
def matchTag : List Char → Option (List Char)
  | '<' :: c :: rest => if c = '>' then none else matchTagClose rest
  | _ => none

def tagSubAux : Nat → List Char → List Char
  | 0, l => l
  | _, [] => []
  | fuel + 1, c :: rest =>
    match matchTag (c :: rest) with
    | some after => ' ' :: tagSubAux fuel after
    | none => c :: tagSubAux fuel rest

/-- `re.sub(r"<[^>]+>", " ", text)`. -/
def tagSub (l : List Char) : List Char := tagSubAux l.length l

/-- Strip a literal pattern off the front of a list. -/
def stripLead : List Char → List Char → Option (List Char)
  | [], l => some l
  | _, [] => none
  | p :: ps, c :: cs => if p = c then stripLead ps cs else none

/-- Modelled subset of Python `html.unescape` (standard library): the
semicolon-terminated named and numeric entities that occur in catalog
descriptions.  Only the table of recognised entities is narrower than the
standard library's; the scanning behaviour is the same. -/
def entityTable : List (List Char × Char) :=
  [(['a', 'm', 'p', ';'], '&'), (['l', 't', ';'], '<'), (['g', 't', ';'], '>'),
   (['q', 'u', 'o', 't', ';'], '"'), (['a', 'p', 'o', 's', ';'], '\''),
   (['#', '3', '9', ';'], '\''), (['n', 'b', 's', 'p', ';'], ' ')]

def findEntity (l : List Char) : List (List Char × Char) → Option (Char × List Char)
  | [] => none
  | (pat, ch) :: rest =>
    match stripLead pat l with
    | some after => some (ch, after)
    | none => findEntity l rest

def unescapeAux : Nat → List Char → List Char
  | 0, l => l
  | _, [] => []
  | fuel + 1, c :: rest =>
    if c = '&' then
      match findEntity rest entityTable with
      | some (ch, after) => ch :: unescapeAux fuel after
      | none => '&' :: unescapeAux fuel rest
    else c :: unescapeAux fuel rest

/-- `_strip_html`: `<br>` variants to newlines, other tags to spaces,
then entity unescaping. -/
def strip_html (text : String) : String :=
  String.mk (unescapeAux text.data.length (tagSub (brSub text.data)))

/-! ## `_tokenize_synopsis` (engine.py 328-336)

`TOKEN_PATTERN = \s+|[^\w\s]+|\w+(?:'\w+)?` scanned with `finditer`: at
every position exactly one alternative matches (each character is
whitespace, a word character, or neither), so the scan partitions the text
into whitespace runs, non-word runs, and words with an optional
apostrophe-joined tail. -/

/-- Neither whitespace nor a word character. -/
def isPunctChar (c : Char) : Bool := !isSpaceChar c && !isWordChar c

/-- Match `\w+(?:'\w+)?` greedily at the head; returns (token, rest). -/
def wordToken (l : List Char) : List Char × List Char :=
  match l.dropWhile isWordChar with
  | '\'' :: r2 =>
    if r2.takeWhile isWordChar = [] then
      (l.takeWhile isWordChar, l.dropWhile isWordChar)
    else
      (l.takeWhile isWordChar ++ '\'' :: r2.takeWhile isWordChar,
        r2.dropWhile isWordChar)
  | _ => (l.takeWhile isWordChar, l.dropWhile isWordChar)

def tokenizeAux : Nat → List Char → List (List Char)
  | 0, _ => []
  | _, [] => []
  | fuel + 1, c :: rest =>
    if isSpaceChar c then
      (c :: rest).takeWhile isSpaceChar ::
        tokenizeAux fuel ((c :: rest).dropWhile isSpaceChar)
    else if isWordChar c then
      (wordToken (c :: rest)).1 :: tokenizeAux fuel (wordToken (c :: rest)).2
    else
      (c :: rest).takeWhile isPunctChar ::
        tokenizeAux fuel ((c :: rest).dropWhile isPunctChar)

/-- The token stream of `TOKEN_PATTERN.finditer(text)`. -/
def tokenize (text : String) : List String :=
  (tokenizeAux text.data.length text.data).map String.mk

/-- `WORD_PATTERN.fullmatch(token)`: the whole token is `\w+(?:'\w+)?`. -/
def isWordToken (s : String) : Bool :=
  let w := s.data.takeWhile isWordChar
  let r := s.data.dropWhile isWordChar
  !w.isEmpty &&
    (match r with
     | [] => true
     | '\'' :: r2 =>
       !(r2.takeWhile isWordChar).isEmpty && (r2.dropWhile isWordChar).isEmpty
     | _ => false)

/-- `_tokenize_synopsis`: the tokens and the indices of the word tokens. -/
def tokenize_synopsis (text : String) : List String × List Nat :=
  let tokens := tokenize text
  (tokens, (tokens.enum.filter (fun p => isWordToken p.2)).map (fun p => p.1))

/-! ## Title variants and `_mask_title_variants` (engine.py 163-171, 339-359)

Python `set[int]` values are modelled as duplicate-free `List Nat` grown
with `insertNew`; only membership and size are ever observed of them. -/

/-- `_title_variants`: the four title fields then the synonyms, truthy only. -/
def title_variants (m : Media) : List String :=
  (([m.title.english, m.title.romaji, m.title.native, m.title.userPreferred]
      ++ m.synonyms.map some).filter pyTruthy).map (fun o => o.getD "")

/-- `_choose_answer`: first truthy title, else `"Unknown"`. -/
def choose_answer (m : Media) : String :=
  let s := firstTruthy
    [m.title.english, m.title.romaji, m.title.native, m.title.userPreferred]
  if s = "" then "Unknown" else s

/-- `WORD_PATTERN.findall(variant)`: all word tokens of the variant. -/
def wordsOf (s : String) : List String :=
  (tokenize s).filter isWordToken

/-- The scanning loop of `_mask_title_variants` for one variant: positions
(into the word sequence) covered by non-overlapping occurrences of
`vwords`, scanning left to right and jumping over each match.  `fuel`
bounds the loop structurally (the start position grows by at least one per
step, so `wseq.length + 1` suffices when `vwords` is non-empty). -/
def scanMatchesAux (wseq vwords : List String) : Nat → Nat → List Nat
  | 0, _ => []
  | fuel + 1, start =>
    if start + vwords.length ≤ wseq.length then
      if (wseq.drop start).take vwords.length = vwords then
        (List.range vwords.length).map (start + ·)
          ++ scanMatchesAux wseq vwords fuel (start + vwords.length)
      else scanMatchesAux wseq vwords fuel (start + 1)
    else []

/-- Insertion into a list sorted by descending string length. -/
def insertByLen (v : String) : List String → List String
  | [] => [v]
  | w :: ws => if w.length ≤ v.length then v :: w :: ws else w :: insertByLen v ws

/-- `sorted(set(variants), key=len, reverse=True)`.  The relative order of
equal-length variants follows CPython's set iteration order, which is not
reproducible; the masked set is a union over independent per-variant scans,
so that order is immaterial, and the embedding fixes an insertion sort. -/
def sortVariants (variants : List String) : List String :=
  variants.dedup.foldr insertByLen []

/-- `_mask_title_variants`: the word indices covered by any occurrence of
any title variant (case-insensitive, as contiguous word-token runs). -/
def mask_title_variants (tokens : List String) (word_indices : List Nat)
    (variants : List String) : List Nat :=
  if variants = [] || word_indices = [] then []
  else
    let wseq := word_indices.map (fun i => lowerStr (tokens.getD i ""))
    (sortVariants variants).foldl (fun masked v =>
      let vwords := (wordsOf v).map lowerStr
      if vwords = [] then masked
      else
        (scanMatchesAux wseq vwords (wseq.length + 1) 0).foldl
          (fun acc p => insertNew (word_indices.getD p 0) acc) masked) []

/-! ## `_redact_description` (engine.py 546-592) -/

structure RedactedSynopsisSegment where
  text : String
  masked : Bool
deriving DecidableEq

/-- `math.ceil(wc * 0.7)`.  The Python multiplication is IEEE-754; the
embedding computes the exact rational ceiling `⌈wc · 7/10⌉`, here as the
natural-number formula `(7·wc + 9) / 10` (the two are equal —
`ceil70_eq_ceil` below — and agree with the float computation on every
word count in reach). -/
def ceil70 (wc : Nat) : Nat := (7 * wc + 9) / 10

/-- The result bundle of `_redact_description`:
clean text, segments, masked word indices, masked words. -/
structure RedactedDescription where
  text : String
  segments : List RedactedSynopsisSegment
  masked_word_indices : List Nat
  masked_words : List String
deriving DecidableEq

/-- The mask-count target (engine.py 560-569): `ceil(0.7 × wordCount)`,
floored to the title-masked count, capped at `wordCount - 1` when some word
is outside the title mask, clamped to `[1, wordCount]`. -/
def maskedTarget (word_count title_count : Nat) : Nat :=
  if word_count = 1 then 1
  else
    let desired0 := max (ceil70 word_count) title_count
    let desired1 :=
      if 1 < word_count then
        if title_count < word_count then min desired0 (word_count - 1)
        else word_count
      else desired0
    max 1 (min desired1 word_count)

/-- The final mask set (engine.py 571-580): the title mask, grown with a
shuffled prefix of the not-yet-masked word indices until the target is
met. -/
def maskedIndicesOf (shuffle : Nat → List Nat → List Nat) (mediaId : Nat)
    (title_masked : List Nat) (word_indices : List Nat) (target : Nat) :
    List Nat :=
  if title_masked.length < target then
    let remaining := word_indices.filter (fun i => i ∉ title_masked)
    if remaining = [] then title_masked
    else
      ((shuffle mediaId remaining).take (target - title_masked.length)).foldl
        (fun acc i => insertNew i acc) title_masked
  else title_masked

/-- `additional_indices` (engine.py 582): the non-title masked indices,
sorted ascending. -/
def additionalIndices (masked_indices title_masked : List Nat) : List Nat :=
  List.insertionSort (· ≤ ·)
    (masked_indices.filter (fun i => i ∉ title_masked))

/-- The ordering of `masked_word_indices` (engine.py 582-584): the
non-title masked indices sorted ascending, then the title-masked indices
sorted ascending (minus any already listed, which is vacuous). -/
def orderedMaskedWordIndices (masked_indices title_masked : List Nat) :
    List Nat :=
  additionalIndices masked_indices title_masked
    ++ (List.insertionSort (· ≤ ·) title_masked).filter
        (fun i => i ∉ additionalIndices masked_indices title_masked)

/-- The body of `_redact_description` on the already-cleaned text. -/
def redactCore (shuffle : Nat → List Nat → List Nat) (mediaId : Nat)
    (variants : List String) (clean_text : String) : RedactedDescription :=
  let tokens := (tokenize_synopsis clean_text).1
  let word_indices := (tokenize_synopsis clean_text).2
  if tokens = [] then ⟨"", [], [], []⟩
  else
    let title_masked := mask_title_variants tokens word_indices variants
    let masked_indices := maskedIndicesOf shuffle mediaId title_masked
      word_indices (maskedTarget word_indices.length title_masked.length)
    let masked_word_indices :=
      orderedMaskedWordIndices masked_indices title_masked
    let segments := tokens.enum.map
      (fun p => RedactedSynopsisSegment.mk p.2 (p.1 ∈ masked_indices))
    let masked_words := masked_word_indices.map
      (fun i => ((segments.getD i ⟨"", false⟩).text))
    ⟨pyStrip clean_text, segments, masked_word_indices, masked_words⟩

/-- `_redact_description`.  `shuffle` stands for the seeded
`random.Random(int(sha256("synopsis:" + id).hexdigest()[:16], 16)).shuffle`
of the standard library (a Mersenne-Twister permutation, deterministic in
`media.id`); it is applied to the not-yet-masked word indices, and theorems
assume at most that it permutes its argument. -/
def redact_description (shuffle : Nat → List Nat → List Nat) (media : Media) :
    RedactedDescription :=
  match media.description with
  | none => ⟨"", [], [], []⟩
  | some desc =>
    if desc = "" then ⟨"", [], [], []⟩
    else redactCore shuffle media.id (title_variants media) (strip_html desc)

/-! ## `_generate_synopsis_levels` (engine.py 202-246) -/

structure SynopsisHint where
  ratio : ℚ
  text : String
deriving DecidableEq

/-- `(n : ℚ) * q`, computed on the reduced representation so that the
kernel can evaluate it (`qmulNat_eq` below proves the equality). -/
def qmulNat (n : Nat) (q : ℚ) : ℚ := mkRat (n * q.num) q.den

/-- One iteration's reveal count (engine.py 219-229), from the clamped
ratio and the previous iteration's count. -/
def revealCountStep (total last : Nat) (ratio : ℚ) : Nat :=
  if ratio ≤ 0 then 0
  else if 1 ≤ ratio then total
  else
    let target := max 1 (Int.toNat ⌈qmulNat total ratio⌉)
    if target ≤ last then min total (last + 1) else min total target

/-- Render one level: masked segments whose index is not revealed become
`[REDACTED]`, then the concatenation is stripped. -/
def renderLevel (segments : List RedactedSynopsisSegment) (revealed : List Nat) :
    String :=
  pyStrip (String.join (segments.enum.map (fun p =>
    if p.2.masked && p.1 ∉ revealed then "[REDACTED]" else p.2.text)))

/-- The level loop of `_generate_synopsis_levels`: walk the ratios carrying
the previous reveal count and the previously emitted text; a level whose
rendered text equals the previously emitted one is skipped (the count still
advances). -/
def synopsisLevelsAux (segments : List RedactedSynopsisSegment)
    (mwi : List Nat) (total : Nat) :
    Nat → Option String → List ℚ → List SynopsisHint
  | _, _, [] => []
  | last, lastText, lv :: rest =>
    let ratio := max 0 (min lv 1)
    let c := revealCountStep total last ratio
    let revealed := mwi.take (min c total)
    let text := renderLevel segments revealed
    if lastText = some text then synopsisLevelsAux segments mwi total c lastText rest
    else ⟨ratio, text⟩ :: synopsisLevelsAux segments mwi total c (some text) rest

/-- `_generate_synopsis_levels`. -/
def generate_synopsis_levels (segments : List RedactedSynopsisSegment)
    (masked_word_indices : List Nat) (reveal_levels : List ℚ) :
    List SynopsisHint :=
  if segments = [] then []
  else
    let total := masked_word_indices.length
    let base_text := pyStrip (String.join (segments.map (fun s => s.text)))
    if total = 0 then
      reveal_levels.map (fun lv => ⟨max 0 (min lv 1), base_text⟩)
    else synopsisLevelsAux segments masked_word_indices total 0 none reveal_levels

/-- The reveal-count sequence of the level loop (engine.py 218-231,
the dedup check does not feed back into the counts). -/
def revealCountsAux (total : Nat) : Nat → List ℚ → List Nat
  | _, [] => []
  | last, lv :: rest =>
    let c := revealCountStep total last (max 0 (min lv 1))
    c :: revealCountsAux total c rest

/-- The reveal counts computed across the levels. -/
def revealCounts (total : Nat) (ratios : List ℚ) : List Nat :=
  revealCountsAux total 0 ratios

/-- Each level's set of revealed masked-word indices: the prefix of
`masked_word_indices` of that level's reveal count (engine.py 231). -/
def revealedSets (mwi : List Nat) (ratios : List ℚ) : List (List Nat) :=
  (revealCounts mwi.length ratios).map (fun c => mwi.take (min c mwi.length))

/-! ## Character-silhouette game (engine.py 607-765) -/

/-- `_normalize_role`: underscores to spaces, strip, `None` if empty,
else title-case. -/
def normalize_role (role : Option String) : Option String :=
  match role with
  | none => none
  | some r =>
    if r = "" then none
    else
      let normalized := pyStrip (String.mk (r.data.map
        (fun c => if c = '_' then ' ' else c)))
      if normalized = "" then none else some (titleCase normalized)

/-- `_available_character_edges`: edges whose character has an image with a
truthy large or medium URL. -/
def available_character_edges (m : Media) : List MediaCharacterEdge :=
  m.characters.filter (fun e =>
    match e.node.image with
    | none => false
    | some img => pyTruthy img.large || pyTruthy img.medium)

/-- `_character_name_variants`: userPreferred, full, native — truthy,
stripped, deduplicated by casefolded key, first occurrence kept. -/
def character_name_variants (e : MediaCharacterEdge) : List String :=
  (([e.node.name.userPreferred, e.node.name.full, e.node.name.native].filterMap
      (fun v => match v with
        | none => none
        | some s =>
          let normalized := pyStrip s
          if s = "" || normalized = "" then none else some normalized))).foldl
    (fun acc v =>
      if (lowerStr v) ∈ acc.map lowerStr then acc else acc ++ [v]) []

/-- First-occurrence filtering by character id (engine.py 658-667). -/
def uniqueByCharId : List MediaCharacterEdge → List Nat → List MediaCharacterEdge
  | [], _ => []
  | e :: es, seen =>
    if e.node.id ∈ seen then uniqueByCharId es seen
    else e :: uniqueByCharId es (e.node.id :: seen)

/-- `_select_character_round_edges`.  `cshuffle` stands for the seeded
`random.Random(sha256("character-rounds:" + id).digest()[:8]).shuffle` of
the standard library, deterministic in `media.id`; theorems assume at most
that it permutes its argument. -/
def select_character_round_edges
    (cshuffle : Nat → List MediaCharacterEdge → List MediaCharacterEdge)
    (m : Media) (count : Nat) : List MediaCharacterEdge :=
  let edges := available_character_edges m
  if edges = [] then []
  else
    let unique_edges := uniqueByCharId edges []
    if unique_edges.length < count then []
    else
      let ordered := List.insertionSort
        (fun a b => a.node.id ≤ b.node.id) unique_edges
      (cshuffle m.id ordered).take count

/-- One reveal-stage configuration of `CHARACTER_GUESS_ROUND_CONFIG`. -/
structure RoundConfig where
  order : Nat
  difficulty : Nat
  label : String
  filter : String
  description : Option String
deriving DecidableEq

def CHARACTER_GUESS_ROUND_CONFIG : List RoundConfig :=
  [⟨1, 1, "Silhouette", "brightness(0) saturate(0) contrast(180%) blur(12px)",
    some "Shadow outline only"⟩,
   ⟨2, 2, "Spotlight", "brightness(0.45) saturate(120%) blur(6px)",
    some "Soft lighting begins to reveal features"⟩,
   ⟨3, 3, "Full reveal", "none", some "Complete character artwork"⟩]

/-- One entry of a character-guess round (payload fields not referenced by
any claim — the reveal style copied from the round config, the anime answer
and aliases shared by every entry — are carried by the round and game). -/
structure CharacterGuessEntry where
  characterId : Nat
  name : String
  image : String
  role : Option String
  characterAliases : List String
deriving DecidableEq

structure CharacterGuessRound where
  order : Nat
  difficulty : Nat
  entries : List CharacterGuessEntry
deriving DecidableEq

structure CharacterSilhouetteGame where
  answer : String
  animeAliases : List String
  primaryCharacterId : Nat
  rounds : List CharacterGuessRound
deriving DecidableEq

/-- Build one entry from an edge (engine.py 703-735); `none` when the
character has no truthy image URL. -/
def entryOfEdge (e : MediaCharacterEdge) : Option CharacterGuessEntry :=
  let image_url := match e.node.image with
    | none => none
    | some img => pyOr img.large img.medium
  if pyTruthy image_url then
    let name := firstTruthy
      [e.node.name.full, e.node.name.userPreferred, e.node.name.native]
    some ⟨e.node.id, if name = "" then "Unknown" else name, image_url.getD "",
      normalize_role e.role, character_name_variants e⟩
  else none

def buildEntries : List MediaCharacterEdge → Option (List CharacterGuessEntry)
  | [] => some []
  | e :: es => do
    let ent ← entryOfEdge e
    let rest ← buildEntries es
    pure (ent :: rest)

/-- The per-round slicing loop of `_build_character_guess_game`
(engine.py 696-750): round `idx` takes edges `[4*idx, 4*idx+4)`. -/
def buildRoundsAux (selected : List MediaCharacterEdge) :
    Nat → List RoundConfig → Option (List CharacterGuessRound)
  | _, [] => some []
  | idx, cfg :: rest =>
    let edges := (selected.drop (idx * 4)).take 4
    if edges.length < 4 then none
    else do
      let entries ← buildEntries edges
      let tail ← buildRoundsAux selected (idx + 1) rest
      pure (⟨cfg.order, cfg.difficulty, entries⟩ :: tail)

/-- `_build_character_guess_game`: requires `3 × 4` distinct
portrait-bearing characters, deterministically shuffled, sliced four per
round; `none` when they cannot be supplied. -/
def build_character_guess_game
    (cshuffle : Nat → List MediaCharacterEdge → List MediaCharacterEdge)
    (m : Media) : Option CharacterSilhouetteGame :=
  let rounds_required := CHARACTER_GUESS_ROUND_CONFIG.length
  if rounds_required = 0 then none
  else
    let total_required := rounds_required * 4
    let selected_edges := select_character_round_edges cshuffle m total_required
    if selected_edges.length < total_required then none
    else
      match buildRoundsAux selected_edges 0 CHARACTER_GUESS_ROUND_CONFIG with
      | none => none
      | some rounds =>
        let primary :=
          match rounds.getLast? with
          | some lastR =>
            (match lastR.entries.head? with
             | some e => some e
             | none =>
               match rounds.head? with
               | some firstR => firstR.entries.head?
               | none => none)
          | none => none
        match primary with
        | none => none
        | some p =>
          some ⟨choose_answer m, title_variants m, p.characterId, rounds⟩

/-! ## `build_round_pools` (services/character_pool.py)

The tier-escalating allocator of §4.5 of the spec.  It is present under
`src/` but nothing calls it, and its import `character_edges_for_tier`
does not exist in `services/anilist.py`; that one function is therefore
modelled from the spec. -/

/-- Modelled from the spec: `character_edges_for_tier` is imported by
`services/character_pool.py` from `services/anilist.py` but is defined
nowhere under `src/`.  Per §4.5 a tier's candidates are the media's
characters "tagged at that difficulty tier" holding "valid large/medium
portrait URLs", minus `exclude_ids`, capped at `max_candidates`; the data
model carries no per-character difficulty tag, so every tier offers the
full portrait-bearing pool (each tier's set equals the least-restrictive
tier's set). -/
def character_edges_for_tier (media : Media) (difficulty : Nat)
    (max_candidates : Nat) (exclude_ids : List Nat) : List MediaCharacterEdge :=
  let _ := difficulty
  ((available_character_edges media).filter
    (fun e => e.node.id ∉ exclude_ids)).take max_candidates

/-- `_FALLBACK_BY_DIFFICULTY`: ordered tiers to try per difficulty. -/
def fallbackByDifficulty (d : Nat) : List Nat :=
  if d = 1 then [1, 2, 3]
  else if d = 2 then [2, 3, 1]
  else if d = 3 then [3, 2, 1]
  else [d]

/-- The candidate-consumption loop shared by the three passes of
`build_round_pools`: append candidates whose character id is not in
`local` (nor in `skipIds`, the extra `used_ids` check of the second pass)
until the round holds `target` entries.  Returns the grown round and the
grown `local_used` set. -/
def fillFromCandidates :
    List MediaCharacterEdge → List Nat → List MediaCharacterEdge → List Nat →
      Nat → List MediaCharacterEdge × List Nat
  | [], _, acc, localUsed, _ => (acc, localUsed)
  | e :: es, skipIds, acc, localUsed, target =>
    if target ≤ acc.length then (acc, localUsed)
    else if e.node.id ∈ localUsed || e.node.id ∈ skipIds then
      fillFromCandidates es skipIds acc localUsed target
    else
      fillFromCandidates es skipIds (acc ++ [e]) (e.node.id :: localUsed) target

/-- The per-tier escalation loop of one round (character_pool.py 40-57). -/
def roundTiersLoop (media : Media) (used : List Nat) :
    List Nat → List MediaCharacterEdge → List Nat →
      List MediaCharacterEdge × List Nat
  | [], acc, localUsed => (acc, localUsed)
  | t :: ts, acc, localUsed =>
    if 4 ≤ acc.length then (acc, localUsed)
    else
      let cands := character_edges_for_tier media t 24 (used ++ localUsed)
      let (acc', local') := fillFromCandidates cands [] acc localUsed 4
      if 4 ≤ acc'.length then (acc', local')
      else roundTiersLoop media used ts acc' local'

/-- `build_round_pools` (character_pool.py 17-102) with the engine's round
shape (`per_round = 4`, `max_candidates = 24`): per difficulty, try the
fallback tiers, then an escalation pass on the least-restrictive tier still
excluding used ids, then a final pass allowing reuse of characters used in
earlier rounds (`exclude_ids = local_used` only); `none` as soon as a
round still cannot reach four entries. -/
def buildRoundPoolsAux (media : Media) :
    List Nat → List Nat → Option (List (List MediaCharacterEdge))
  | [], _ => some []
  | d :: ds, used =>
    let (r1, l1) := roundTiersLoop media used (fallbackByDifficulty d) [] []
    let (r2, l2) :=
      if r1.length < 4 then
        fillFromCandidates (character_edges_for_tier media 3 24 (used ++ l1))
          used r1 l1 4
      else (r1, l1)
    let (r3, l3) :=
      if r2.length < 4 then
        fillFromCandidates (character_edges_for_tier media 3 24 l2) [] r2 l2 4
      else (r2, l2)
    if r3.length < 4 then none
    else
      match buildRoundPoolsAux media ds (used ++ l3) with
      | none => none
      | some rest => some (r3 :: rest)

def build_round_pools (media : Media) (difficulties : List Nat) :
    Option (List (List MediaCharacterEdge)) :=
  buildRoundPoolsAux media difficulties []

/-! ## Candidate pool and deterministic selector (engine.py 938-1000) -/

/-- The normalised status of one user list:
`(media_list.status or media_list.name or "").upper()` (compared here
lower-cased, which is equivalent). -/
def listStatus (ml : MediaList) : String :=
  lowerStr (firstTruthy [ml.status, ml.name])

/-- The ids classified completed (status `COMPLETED` or `REPEATING`). -/
def completedIds (ul : MediaListCollection) : List Nat :=
  ul.lists.foldl (fun acc ml =>
    if listStatus ml = "completed" || listStatus ml = "repeating" then
      ml.entries.foldl (fun a e => insertNew e.media.id a) acc
    else acc) []

/-- The ids classified watching (status `CURRENT`, `REPEATING` or
`WATCHING`). -/
def watchingIds (ul : MediaListCollection) : List Nat :=
  ul.lists.foldl (fun acc ml =>
    if listStatus ml = "current" || listStatus ml = "repeating"
        || listStatus ml = "watching" then
      ml.entries.foldl (fun a e => insertNew e.media.id a) acc
    else acc) []

/-- `_build_candidate_pool`: the graceful-degradation chain of novelty
filters (engine.py 938-965). -/
def build_candidate_pool (popular : List Media)
    (user_lists : Option MediaListCollection) (recent_ids : List Nat) :
    List Media :=
  match user_lists with
  | none =>
    let filtered := popular.filter (fun m => m.id ∉ recent_ids)
    if filtered = [] then popular else filtered
  | some ul =>
    let completed_ids := completedIds ul
    let watching_ids := watchingIds ul
    let novelty_pool := popular.filter (fun m =>
      m.id ∉ completed_ids && m.id ∉ watching_ids && m.id ∉ recent_ids)
    if novelty_pool ≠ [] then novelty_pool
    else
      let non_completed := popular.filter (fun m =>
        m.id ∉ completed_ids && m.id ∉ recent_ids)
      let fallback :=
        if non_completed ≠ [] then non_completed
        else popular.filter (fun m => m.id ∉ recent_ids)
      if fallback ≠ [] then fallback else popular

/-- The first 8 hex digits of the SHA-256 digest of the UTF-8 encoded
seed, as an unsigned integer (engine.py 969-970). -/
def seedIndexValue (seed : String) : Nat :=
  hexToNat ((sha256HexChars (utf8Encode seed)).take 8)

/-- `_select_media`: index the pool by the hash-derived value reduced
modulo `max(1, len(pool))`; `none` models the `IndexError` an empty pool
would raise. -/
def select_media (seed : String) (pool : List Media) : Option Media :=
  pool.get? (seedIndexValue seed % max 1 pool.length)

/-- `_choose_media_from_pool` (engine.py 974-1000): filter, then the
fallback chain, then select with the scoped seed; `none` models the
`ValueError` raised on an empty pool. -/
def choose_media_from_pool (base_seed game_key : String) (pool : List Media)
    (excluded_ids : List Nat) (attempt : Nat)
    (attempted_ids : Option (List Nat)) : Option Media :=
  if pool = [] then none
  else
    let filtered := pool.filter (fun m =>
      m.id ∉ excluded_ids &&
        (match attempted_ids with
         | none => true
         | some att => m.id ∉ att))
    let filtered :=
      if filtered = [] &&
          (match attempted_ids with | none => false | some att => att ≠ []) then
        pool.filter (fun m =>
          match attempted_ids with
          | none => true
          | some att => m.id ∉ att)
      else filtered
    let filtered :=
      if filtered = [] then pool.filter (fun m => m.id ∉ excluded_ids)
      else filtered
    let filtered := if filtered = [] then pool else filtered
    select_media (base_seed ++ ":" ++ game_key ++ ":" ++ toString attempt) filtered

/-! ## The daily assembler (engine.py 1009-1195)

The assembler's pure selection-and-validation skeleton, parameterised by
its I/O collaborators:
* `ld` models `_load_media_details` (catalog fetch by id);
* `cshuffle` the character-round shuffle (as in
  `select_character_round_edges`);
* `hasClip` whether `_build_guess_opening_round` finds an opening clip for
  a media item (the round's payload carries no information any claim
  reads, so a round is represented by its media id);
* `openingPool` the outcome of `anilist.fetch_opening_pool` — `none` when
  the feature flag is off or the fetch failed (both make the engine fall
  back to the day's pool);
* `recordOk` whether `_record_recent_media` succeeds for a media id (its
  session/cache bookkeeping is I/O with no claim-visible state).
Game payload construction (`_build_anidle`, `_build_poster`,
`_build_synopsis`, `_build_solution`) reads only the already-chosen media
and cannot fail, so the response carries the chosen media ids, the
character game, and the recording list — everything the claims observe. -/

/-- Append if absent (the `if id not in recorded_ids: append` idiom). -/
def appendNew (l : List Nat) (x : Nat) : List Nat :=
  if x ∈ l then l else l ++ [x]

/-- The fresh-candidate retry loop for the character game
(engine.py 1069-1094), fuelled by `max(len(pool), 1)` attempts. -/
def characterSearch
    (ld : Nat → Media)
    (cshuffle : Nat → List MediaCharacterEdge → List MediaCharacterEdge)
    (base_seed : String) (pool : List Media) (sel : List Nat) :
    Nat → Nat → List Nat → Option (Media × CharacterSilhouetteGame)
  | 0, _, _ => none
  | fuel + 1, attempt, attempted =>
    match choose_media_from_pool base_seed "character_silhouette" pool sel
        attempt (some attempted) with
    | none => none
    | some cand =>
      let cm := ld cand.id
      let attempted' := insertNew cm.id attempted
      match build_character_guess_game cshuffle cm with
      | some g => some (cm, g)
      | none => characterSearch ld cshuffle base_seed pool sel fuel
          (attempt + 1) attempted'

/-- The fallback reuse of already-selected media (engine.py 1096-1109). -/
def characterFallback
    (cshuffle : Nat → List MediaCharacterEdge → List MediaCharacterEdge) :
    List Media → Option (Media × CharacterSilhouetteGame)
  | [] => none
  | m :: ms =>
    match build_character_guess_game cshuffle m with
    | some g => some (m, g)
    | none => characterFallback cshuffle ms

/-- The opening-round accumulation loop (engine.py 1134-1155): collect
media ids of successfully built rounds, excluding ids selected for the
core games or for earlier rounds and ids already attempted; the fuel is
the loop's `max_attempts` budget and `counter` its attempt counter. -/
def openingSearch (ld : Nat → Media) (hasClip : Media → Bool)
    (base_seed : String) (cpool : List Media) (sel : List Nat) :
    Nat → Nat → List Nat → List Nat → List Nat
  | 0, _, _, roundsAcc => roundsAcc
  | fuel + 1, counter, attempted, roundsAcc =>
    if 3 ≤ roundsAcc.length then roundsAcc
    else
      match choose_media_from_pool base_seed
          ("guess_the_opening:" ++ toString roundsAcc.length) cpool
          (sel ++ roundsAcc) counter (some attempted) with
      | none => roundsAcc
      | some cand =>
        let om := ld cand.id
        let attempted' := insertNew om.id attempted
        if hasClip om then
          openingSearch ld hasClip base_seed cpool sel fuel (counter + 1)
            attempted' (roundsAcc ++ [om.id])
        else
          openingSearch ld hasClip base_seed cpool sel fuel (counter + 1)
            attempted' roundsAcc

/-- The claim-visible content of a successfully assembled
`DailyPuzzleResponse`. -/
structure AssembledPuzzle where
  anidleId : Nat
  posterId : Nat
  synopsisId : Nat
  characterId : Nat
  characterGame : CharacterSilhouetteGame
  openingIds : Option (List Nat)
  openingEnabled : Bool
  recordedIds : List Nat
deriving DecidableEq

/-- The selection-and-validation pipeline of `_assemble_daily_puzzle`
after its two opening computations — the candidate pool (engine.py
1023-1027) and the user-scoped base seed (engine.py 1029-1031) — which
`assemble_core` below performs. -/
def assemble_seeded (ld : Nat → Media)
    (cshuffle : Nat → List MediaCharacterEdge → List MediaCharacterEdge)
    (hasClip : Media → Bool) (base_seed : String)
    (includeOpening : Bool) (openingPool : Option (List Media))
    (pool : List Media) : Except String AssembledPuzzle :=
  match choose_media_from_pool base_seed "anidle" pool [] 0 none with
  | none => .error "Candidate pool is empty"
  | some anidle_cand =>
    let anidle_media := ld anidle_cand.id
    let sel1 := insertNew anidle_media.id []
    let rec1 := appendNew [] anidle_media.id
    match choose_media_from_pool base_seed "poster_zoomed" pool sel1 0 none with
    | none => .error "Candidate pool is empty"
    | some poster_cand =>
      let poster_media := ld poster_cand.id
      let sel2 := insertNew poster_media.id sel1
      let rec2 := appendNew rec1 poster_media.id
      match choose_media_from_pool base_seed "redacted_synopsis" pool sel2
          0 none with
      | none => .error "Candidate pool is empty"
      | some synopsis_cand =>
        let synopsis_media := ld synopsis_cand.id
        let sel3 := insertNew synopsis_media.id sel2
        let rec3 := appendNew rec2 synopsis_media.id
        let charResult :=
          match characterSearch ld cshuffle base_seed pool sel3
              (max pool.length 1) 0 [] with
          | some r => some r
          | none =>
            characterFallback cshuffle
              [anidle_media, poster_media, synopsis_media]
        match charResult with
        | none => .error "Unable to build character silhouette puzzle"
        | some (character_media, game) =>
          let sel4 := insertNew character_media.id sel3
          let rec4 := appendNew rec3 character_media.id
          let candidate_pool := match openingPool with
            | some op => if op = [] then pool else op
            | none => pool
          let opening_ids :=
            if includeOpening && candidate_pool ≠ [] then
              openingSearch ld hasClip base_seed candidate_pool sel4
                (max (candidate_pool.length * 3) 9) 0 [] []
            else []
          let openingOk := opening_ids.length = 3
          let rec5 :=
            if openingOk then opening_ids.foldl appendNew rec4 else rec4
          .ok
            { anidleId := anidle_media.id
              posterId := poster_media.id
              synopsisId := synopsis_media.id
              characterId := character_media.id
              characterGame := game
              openingIds := if openingOk then some opening_ids else none
              openingEnabled := openingOk
              recordedIds := rec5 }

/-- `_assemble_daily_puzzle` up to and including building every game and
the `recorded_ids` list — everything before the history-recording loop
(engine.py 1016-1179): the candidate pool and the user-scoped base seed,
then the pipeline. -/
def assemble_core (ld : Nat → Media)
    (cshuffle : Nat → List MediaCharacterEdge → List MediaCharacterEdge)
    (hasClip : Media → Bool) (day : String) (user : Option Nat)
    (includeOpening : Bool) (openingPool : Option (List Media))
    (popular : List Media) (userLists : Option MediaListCollection)
    (recentIds : List Nat) : Except String AssembledPuzzle :=
  assemble_seeded ld cshuffle hasClip
    (match user with
     | none => day
     | some uid => day ++ ":" ++ toString uid)
    includeOpening openingPool
    (build_candidate_pool popular userLists recentIds)

/-- The history-recording loop (engine.py 1181-1183 via 922-935):
`_record_recent_media` re-raises any storage failure after rolling the
session back, and the loop in `_assemble_daily_puzzle` does not catch. -/
def runRecords (recordOk : Nat → Bool) : List Nat → Except String Unit
  | [] => .ok ()
  | i :: is =>
    if recordOk i then runRecords recordOk is
    else .error "recent-media recording failed"

/-- `_assemble_daily_puzzle`: the core assembly, then — for authenticated
users only — the anti-repeat recording of `recorded_ids`, whose failure
propagates. -/
def assemble_daily_puzzle (ld : Nat → Media)
    (cshuffle : Nat → List MediaCharacterEdge → List MediaCharacterEdge)
    (hasClip : Media → Bool) (recordOk : Nat → Bool) (day : String)
    (user : Option Nat) (includeOpening : Bool)
    (openingPool : Option (List Media)) (popular : List Media)
    (userLists : Option MediaListCollection) (recentIds : List Nat) :
    Except String AssembledPuzzle :=
  match assemble_core ld cshuffle hasClip day user includeOpening openingPool
      popular userLists recentIds with
  | .error e => .error e
  | .ok core =>
    match user with
    | none => .ok core
    | some _ =>
      match runRecords recordOk core.recordedIds with
      | .error e => .error e
      | .ok _ => .ok core

/-! ## Derived views used in theorem statements -/

/-- The cleaned synopsis: the HTML-stripped, entity-unescaped description
(`""` for an absent description). -/
def cleanTextOf (media : Media) : String :=
  match media.description with
  | none => ""
  | some d => strip_html d

/-- The tokens the redaction engine works on. -/
def tokensOf (media : Media) : List String :=
  (tokenize_synopsis (cleanTextOf media)).1

/-- The word-token indices of the cleaned synopsis. -/
def wordIndicesOf (media : Media) : List Nat :=
  (tokenize_synopsis (cleanTextOf media)).2

/-- The word count of the cleaned synopsis. -/
def wordCountOf (media : Media) : Nat := (wordIndicesOf media).length

/-- The title-occurrence mask computed inside `_redact_description`. -/
def titleMaskedOf (media : Media) : List Nat :=
  mask_title_variants (tokensOf media) (wordIndicesOf media)
    (title_variants media)

/-- The distinct portrait-bearing characters a media item offers. -/
def distinctPortraitCount (m : Media) : Nat :=
  (uniqueByCharId (available_character_edges m) []).length

/-- All character ids of a built game, in round-then-entry order. -/
def gameCharacterIds (g : CharacterSilhouetteGame) : List Nat :=
  g.rounds.flatMap (fun r => r.entries.map (fun e => e.characterId))

/-- The (up to) seven media-item slots of an assembled response: the four
core games and the opening rounds. -/
def slotIds (r : AssembledPuzzle) : List Nat :=
  [r.anidleId, r.posterId, r.synopsisId, r.characterId]
    ++ r.openingIds.getD []

/-! ## Concrete inputs used by witnesses and counterexamples -/

/-- An identity shuffle of word indices: a (trivial) permutation, standing
in for one concrete Mersenne-Twister outcome. -/
def idShuffleNat : Nat → List Nat → List Nat := fun _ l => l

/-- An identity shuffle of character edges. -/
def idShuffleEdges : Nat → List MediaCharacterEdge → List MediaCharacterEdge :=
  fun _ l => l

def emptyTitle : Title := ⟨none, none, none, none⟩

/-- A portrait-bearing character edge with id `i`. -/
def mkEdge (i : Nat) : MediaCharacterEdge :=
  ⟨some "MAIN",
   ⟨i, ⟨some ("Char" ++ toString i), none, none⟩,
    some ⟨some ("http://img.example/" ++ toString i), none⟩⟩⟩

/-- A media item with `n` distinct portrait-bearing characters. -/
def mkMedia (mid : Nat) (titleEnglish : String) (desc : Option String)
    (n : Nat) : Media :=
  { id := mid
    title := { romaji := none, english := some titleEnglish, native := none,
               userPreferred := some titleEnglish }
    synonyms := []
    description := desc
    characters := (List.range n).map (fun i => mkEdge (i + 1)) }

/-- Description with trailing whitespace (for the round-trip strip gap). -/
def mediaHi : Media := mkMedia 41 "Zzz" (some "Hi ") 0

/-- A two-word description none of whose words occur in a title. -/
def mediaHello : Media := mkMedia 42 "Zzz" (some "hello world") 0

/-- A media item with exactly four distinct portrait characters. -/
def mediaFourChars : Media := mkMedia 43 "Quad" none 4

/-- A media item with twelve distinct portrait characters (buildable). -/
def mediaBig : Media := mkMedia 7 "Alpha" (some "A story.") 12

/-- A loader returning `mediaBig` for its id. -/
def ldOne : Nat → Media := fun n => if n = 7 then mediaBig else mkMedia n "" none 0

/-- A seven-item pool of buildable media with distinct ids. -/
def poolSeven : List Media :=
  (List.range 7).map (fun i => mkMedia (100 + i) ("Show" ++ toString i) none 12)

/-- A loader for `poolSeven` (and `mediaBig`). -/
def ldSeven : Nat → Media := fun n =>
  if 100 ≤ n && n < 107 then mkMedia n ("Show" ++ toString (n - 100)) none 12
  else ldOne n

/-- Segments with one masked word, for the duplicate-level example. -/
def segsHiYo : List RedactedSynopsisSegment := [⟨"Hi", true⟩, ⟨" ", false⟩, ⟨"yo", false⟩]

/-- The candidate-pool degradation chain as the claim words it (first
non-empty wins): (1) excluding watching ∪ completed ∪ recent,
(2) excluding completed ∪ recent, (3) excluding recent, (4) the full
popularity pool. -/
def candidatePoolChain (popular : List Media)
    (user_lists : Option MediaListCollection) (recent_ids : List Nat) :
    List Media :=
  let completed := match user_lists with
    | none => []
    | some ul => completedIds ul
  let watching := match user_lists with
    | none => []
    | some ul => watchingIds ul
  let p1 := popular.filter (fun m =>
    m.id ∉ watching && m.id ∉ completed && m.id ∉ recent_ids)
  let p2 := popular.filter (fun m => m.id ∉ completed && m.id ∉ recent_ids)
  let p3 := popular.filter (fun m => m.id ∉ recent_ids)
  if p1 ≠ [] then p1
  else if p2 ≠ [] then p2
  else if p3 ≠ [] then p3
  else popular

/-- Equality of `Except` results is decidable componentwise (used only to
evaluate concrete assembly outcomes). -/
instance exceptDecEq {ε α : Type} [DecidableEq ε] [DecidableEq α] :
    DecidableEq (Except ε α)
  | .error e, .error e' =>
    if h : e = e' then .isTrue (by rw [h]) else .isFalse (by simp [h])
  | .error _, .ok _ => .isFalse (by simp)
  | .ok _, .error _ => .isFalse (by simp)
  | .ok a, .ok a' =>
    if h : a = a' then .isTrue (by rw [h]) else .isFalse (by simp [h])

/-! # Theorems -/

/-! ## Set-helper facts -/

theorem mem_insertNew {x y : Nat} {l : List Nat} :
    y ∈ insertNew x l ↔ y = x ∨ y ∈ l := by
  unfold insertNew
  split
  · constructor
    · exact fun h => Or.inr h
    · rintro (rfl | h) <;> assumption
  · simp [List.mem_cons]

theorem nodup_insertNew {x : Nat} {l : List Nat} (h : l.Nodup) :
    (insertNew x l).Nodup := by
  unfold insertNew
  split
  · exact h
  · exact List.Nodup.cons (by assumption) h

theorem length_insertNew_le {x : Nat} {l : List Nat} :
    (insertNew x l).length ≤ l.length + 1 := by
  unfold insertNew
  split
  · omega
  · simp

theorem mem_appendNew {x y : Nat} {l : List Nat} :
    y ∈ appendNew l x ↔ y ∈ l ∨ y = x := by
  unfold appendNew
  split
  · constructor
    · exact fun h => Or.inl h
    · rintro (h | rfl) <;> assumption
  · simp [List.mem_append]

theorem nodup_appendNew {x : Nat} {l : List Nat} (h : l.Nodup) :
    (appendNew l x).Nodup := by
  unfold appendNew
  split
  · exact h
  · simpa [List.nodup_append] using ⟨h, by assumption⟩

theorem mem_foldl_appendNew {y : Nat} (xs : List Nat) :
    ∀ l : List Nat, y ∈ xs.foldl appendNew l ↔ y ∈ l ∨ y ∈ xs := by
  induction xs with
  | nil => simp
  | cons x xs ih =>
    intro l
    simp only [List.foldl_cons, ih, mem_appendNew, List.mem_cons]
    tauto

theorem nodup_foldl_appendNew (xs : List Nat) :
    ∀ l : List Nat, l.Nodup → (xs.foldl appendNew l).Nodup := by
  induction xs with
  | nil => exact fun l h => h
  | cons x xs ih => exact fun l h => ih _ (nodup_appendNew h)

/-- A duplicate-free list shorter than the count of distinct ids in a pool
misses some pool id. -/
theorem exists_fresh_of_short {pool : List Media} {excl : List Nat}
    (hnd : (pool.map Media.id).Nodup) (hlen : excl.length < pool.length) :
    ∃ x ∈ pool, x.id ∉ excl := by
  by_contra hall
  push_neg at hall
  have hsub : (pool.map Media.id) ⊆ excl := by
    intro i hi
    rcases List.mem_map.mp hi with ⟨m, hm, rfl⟩
    exact hall m hm
  have := (List.subperm_of_subset hnd hsub).length_le
  simp only [List.length_map] at this
  omega

/-! ## C1: the deterministic selector -/

theorem select_media_mem {seed : String} {pool : List Media} {m : Media}
    (h : select_media seed pool = some m) : m ∈ pool := by
  unfold select_media at h
  exact List.get?_mem h

theorem select_media_total {seed : String} {pool : List Media}
    (h : pool ≠ []) : ∃ m, select_media seed pool = some m ∧ m ∈ pool := by
  have hlen : 0 < pool.length := List.length_pos.mpr h
  have hub : seedIndexValue seed % max 1 pool.length < pool.length := by
    rw [Nat.max_eq_right hlen]
    exact Nat.mod_lt _ hlen
  refine ⟨pool.get ⟨_, hub⟩, ?_, List.get_mem _ _ _⟩
  unfold select_media
  exact List.get?_eq_get hub

/-- **C1.**  For every seed and non-empty pool, `_select_media` returns
`pool[i]` where `i` is the first 8 hexadecimal digits of the SHA-256 digest
of the UTF-8 encoded seed, read as an unsigned integer and reduced modulo
the pool length (`seedIndexValue` is exactly that value, over the concrete
SHA-256 of this file); and the selection is a pure function of the seed and
the pool, so identical inputs yield the identical element. -/
theorem select_media_spec (seed : String) (pool : List Media)
    (h : pool ≠ []) :
    select_media seed pool =
        some (pool.get ⟨seedIndexValue seed % pool.length,
          Nat.mod_lt _ (List.length_pos.mpr h)⟩) ∧
      ∀ seed₂ pool₂, seed₂ = seed → pool₂ = pool →
        select_media seed₂ pool₂ = select_media seed pool := by
  constructor
  · have hlen : 0 < pool.length := List.length_pos.mpr h
    unfold select_media
    rw [Nat.max_eq_right hlen]
    exact List.get?_eq_get _
  · intro seed₂ pool₂ h₁ h₂
    rw [h₁, h₂]

theorem select_media_spec_witness :
    select_media "2024-01-05:anidle:0" [mediaHi, mediaHello] =
        some (([mediaHi, mediaHello] : List Media).get
          ⟨seedIndexValue "2024-01-05:anidle:0" % 2, Nat.mod_lt _ (by decide)⟩) ∧
      ∀ seed₂ pool₂, seed₂ = "2024-01-05:anidle:0" →
        pool₂ = [mediaHi, mediaHello] →
        select_media seed₂ pool₂ =
          select_media "2024-01-05:anidle:0" [mediaHi, mediaHello] :=
  select_media_spec "2024-01-05:anidle:0" [mediaHi, mediaHello]
    (List.cons_ne_nil _ _)

/-! ## C8: the candidate-pool degradation chain -/

/-- **C8.**  `_build_candidate_pool` returns the first non-empty pool of
the chain (1) excluding watching ∪ completed ∪ recent, (2) excluding
completed ∪ recent, (3) excluding recent, (4) the full popularity pool;
consequently the result is non-empty whenever the popularity pool is. -/
theorem build_candidate_pool_chain (popular : List Media)
    (ul : Option MediaListCollection) (recent : List Nat)
    (h : popular ≠ []) :
    build_candidate_pool popular ul recent =
        candidatePoolChain popular ul recent ∧
      build_candidate_pool popular ul recent ≠ [] := by
  have hmain : build_candidate_pool popular ul recent =
      candidatePoolChain popular ul recent := by
    cases ul with
    | none =>
      unfold build_candidate_pool candidatePoolChain
      simp only
      have h1 : popular.filter (fun m =>
            m.id ∉ ([] : List Nat) && m.id ∉ ([] : List Nat) &&
              m.id ∉ recent) =
          popular.filter (fun m => decide (m.id ∉ recent)) := by
        apply List.filter_congr
        intro m _
        by_cases hr : m.id ∈ recent <;> simp [hr]
      have h2 : popular.filter (fun m =>
            m.id ∉ ([] : List Nat) && m.id ∉ recent) =
          popular.filter (fun m => decide (m.id ∉ recent)) := by
        apply List.filter_congr
        intro m _
        by_cases hr : m.id ∈ recent <;> simp [hr]
      rw [h1, h2]
      by_cases hF : popular.filter (fun m => decide (m.id ∉ recent)) = []
      · rw [if_pos hF, if_neg (not_not_intro hF), if_neg (not_not_intro hF),
          if_neg (not_not_intro hF)]
      · rw [if_neg hF, if_pos hF]
    | some u =>
      unfold build_candidate_pool candidatePoolChain
      simp only
      have hp1 : popular.filter (fun m =>
            m.id ∉ watchingIds u && m.id ∉ completedIds u &&
              m.id ∉ recent) =
          popular.filter (fun m =>
            m.id ∉ completedIds u && m.id ∉ watchingIds u &&
              m.id ∉ recent) := by
        apply List.filter_congr
        intro m _
        by_cases h1 : m.id ∈ completedIds u <;>
          by_cases h2 : m.id ∈ watchingIds u <;> simp [h1, h2]
      rw [hp1]
      by_cases e1 : popular.filter (fun m =>
          m.id ∉ completedIds u && m.id ∉ watchingIds u && m.id ∉ recent) = []
      · rw [if_neg (not_not_intro e1), if_neg (not_not_intro e1)]
        by_cases e2 : popular.filter (fun m =>
            m.id ∉ completedIds u && m.id ∉ recent) = []
        · rw [if_neg (not_not_intro e2), if_neg (not_not_intro e2)]
        · rw [if_pos e2, if_pos e2, if_pos e2]
      · rw [if_pos e1, if_pos e1]
  refine ⟨hmain, ?_⟩
  rw [hmain]
  unfold candidatePoolChain
  simp only
  split
  · assumption
  · split
    · assumption
    · split
      · assumption
      · exact h

theorem build_candidate_pool_chain_witness :
    build_candidate_pool [mediaHi, mediaHello] none [42] =
        candidatePoolChain [mediaHi, mediaHello] none [42] ∧
      build_candidate_pool [mediaHi, mediaHello] none [42] ≠ [] :=
  build_candidate_pool_chain [mediaHi, mediaHello] none [42]
    (List.cons_ne_nil _ _)

/-! ## C2: the redaction round-trip -/

theorem wordToken_append (l : List Char) :
    (wordToken l).1 ++ (wordToken l).2 = l := by
  have hl := List.takeWhile_append_dropWhile isWordChar l
  unfold wordToken
  split
  next r2 heq =>
    split
    next => exact hl
    next =>
      have h2 := List.takeWhile_append_dropWhile isWordChar r2
      show (l.takeWhile isWordChar ++ '\'' :: r2.takeWhile isWordChar)
          ++ r2.dropWhile isWordChar = l
      rw [List.append_assoc, List.cons_append, h2, ← heq]
      exact hl
  next => exact hl

theorem wordToken_fst_ne {c : Char} {rest : List Char}
    (h : isWordChar c = true) : (wordToken (c :: rest)).1 ≠ [] := by
  unfold wordToken
  have htw : (c :: rest).takeWhile isWordChar =
      c :: rest.takeWhile isWordChar := by
    rw [List.takeWhile_cons, if_pos h]
  split
  next r2 heq =>
    split
    next => simp [htw]
    next => simp [htw]
  next heq => simp [htw]

theorem wordToken_snd_length {c : Char} {rest : List Char}
    (h : isWordChar c = true) :
    (wordToken (c :: rest)).2.length < (c :: rest).length := by
  have happ := wordToken_append (c :: rest)
  have hne := @wordToken_fst_ne c rest h
  have : (wordToken (c :: rest)).1.length + (wordToken (c :: rest)).2.length
      = (c :: rest).length := by
    rw [← List.length_append, happ]
  have h1 : 0 < (wordToken (c :: rest)).1.length :=
    List.length_pos.mpr hne
  omega

/-- Every character of the text lands in exactly one token: joining the
token stream reproduces the text. -/
theorem tokenizeAux_flatten :
    ∀ (fuel : Nat) (l : List Char), l.length ≤ fuel →
      (tokenizeAux fuel l).flatten = l := by
  intro fuel
  induction fuel with
  | zero =>
    intro l h
    have : l = [] := List.length_eq_zero.mp (Nat.le_zero.mp h)
    subst this
    rfl
  | succ fuel ih =>
    intro l h
    match l with
    | [] => rfl
    | c :: rest =>
      simp only [tokenizeAux]
      by_cases hs : isSpaceChar c = true
      · rw [if_pos hs]
        simp only [List.flatten_cons]
        rw [ih _ ?_, List.takeWhile_append_dropWhile]
        have : (c :: rest).dropWhile isSpaceChar = rest.dropWhile isSpaceChar := by
          rw [List.dropWhile_cons, if_pos hs]
        rw [this]
        have := (List.dropWhile_sublist (l := rest) isSpaceChar).length_le
        simp only [List.length_cons] at h
        omega
      · rw [if_neg hs]
        by_cases hw : isWordChar c = true
        · rw [if_pos hw]
          simp only [List.flatten_cons]
          rw [ih _ ?_]
          · exact wordToken_append (c :: rest)
          · have := @wordToken_snd_length c rest hw
            simp only [List.length_cons] at this h ⊢
            omega
        · rw [if_neg hw]
          simp only [List.flatten_cons]
          rw [ih _ ?_, List.takeWhile_append_dropWhile]
          have hp : isPunctChar c = true := by
            unfold isPunctChar
            rw [Bool.and_eq_true, Bool.not_eq_true', Bool.not_eq_true']
            exact ⟨Bool.not_eq_true _ ▸ hs, Bool.not_eq_true _ ▸ hw⟩
          have : (c :: rest).dropWhile isPunctChar = rest.dropWhile isPunctChar := by
            rw [List.dropWhile_cons, if_pos hp]
          rw [this]
          have := (List.dropWhile_sublist (l := rest) isPunctChar).length_le
          simp only [List.length_cons] at h
          omega

theorem foldl_append_mk (ls : List (List Char)) :
    ∀ acc : List Char,
      List.foldl (fun (r s : String) => r ++ s) (String.mk acc)
          (ls.map String.mk) =
        String.mk (acc ++ ls.flatten) := by
  induction ls with
  | nil => intro acc; simp
  | cons x xs ihx =>
    intro acc
    simp only [List.map_cons, List.foldl_cons, List.flatten_cons]
    have hmk : String.mk acc ++ String.mk x = String.mk (acc ++ x) := rfl
    rw [hmk, ihx, List.append_assoc]

/-- `String.join` over mapped-to-`String` character lists. -/
theorem join_map_mk (ls : List (List Char)) :
    String.join (ls.map String.mk) = String.mk ls.flatten := by
  have := foldl_append_mk ls []
  simpa [String.join] using this

/-- Joining the token stream reproduces the original string. -/
theorem tokenize_join (text : String) :
    String.join (tokenize text) = text := by
  unfold tokenize
  rw [join_map_mk,
    tokenizeAux_flatten text.data.length text.data (Nat.le_refl _)]

theorem tokenize_synopsis_fst (t : String) :
    (tokenize_synopsis t).1 = tokenize t := rfl

/-- The segment texts are exactly the token stream, whatever the mask. -/
theorem map_text_enum (tokens : List String) (P : Nat × String → Bool) :
    ((tokens.enum.map
        (fun p => RedactedSynopsisSegment.mk p.2 (P p))).map
      (fun s => s.text)) = tokens := by
  rw [List.map_map]
  exact List.enum_map_snd tokens

/-- **C2 counterexample.**  For the description `"Hi "` (with a trailing
blank, so the cleaned synopsis is `"Hi "`), concatenating the segment
texts gives the cleaned synopsis `"Hi "`, but the cleaned-text value the
function returns is the stripped `"Hi"` — the two values the claim equates
differ. -/
theorem redact_description_round_trip_cex :
    String.join
        ((redact_description idShuffleNat mediaHi).segments.map
          (fun s => s.text)) = "Hi " ∧
      (redact_description idShuffleNat mediaHi).text = "Hi" ∧
      ("Hi " : String) ≠ "Hi" := by decide

/-- **C2 (amended).**  Concatenating every segment text in order
reproduces the cleaned synopsis (the HTML-stripped, entity-unescaped
description) exactly; the cleaned-text value the function *returns* is
that concatenation with surrounding whitespace stripped (the two coincide
whenever the cleaned synopsis has no leading or trailing whitespace). -/
theorem redact_description_round_trip (shuffle : Nat → List Nat → List Nat)
    (media : Media) :
    String.join
        ((redact_description shuffle media).segments.map
          (fun s => s.text)) = cleanTextOf media ∧
      (redact_description shuffle media).text =
        pyStrip (cleanTextOf media) := by
  unfold redact_description cleanTextOf
  cases media.description with
  | none => exact ⟨rfl, rfl⟩
  | some d =>
    dsimp only
    by_cases hd : d = ""
    · subst hd
      rw [if_pos rfl]
      exact ⟨rfl, rfl⟩
    · rw [if_neg hd]
      simp only [redactCore]
      by_cases htok : (tokenize_synopsis (strip_html d)).1 = []
      · rw [if_pos htok]
        have hclean : strip_html d = "" := by
          have hj := tokenize_join (strip_html d)
          rw [← tokenize_synopsis_fst, htok] at hj
          exact hj.symm
        constructor
        · show String.join [] = strip_html d
          rw [hclean]
          rfl
        · show ("" : String) = pyStrip (strip_html d)
          rw [hclean]
          rfl
      · rw [if_neg htok]
        refine ⟨?_, rfl⟩
        rw [map_text_enum, tokenize_synopsis_fst, tokenize_join]

/-! ## C10: answer-title words are the last to be unmasked -/

/-- In a list split as non-`T` elements before `T` elements, any prefix
that reaches into the `T` part already contains every non-`T` element. -/
theorem take_sep {A B T : List Nat} (hA : ∀ a ∈ A, a ∉ T)
    (hB : ∀ b ∈ B, b ∈ T) (count : Nat)
    (hex : ∃ i ∈ (A ++ B).take count, i ∈ T) :
    ∀ j ∈ A ++ B, j ∉ T → j ∈ (A ++ B).take count := by
  obtain ⟨i, hi, hiT⟩ := hex
  have hsplit : (A ++ B).take count = A.take count ++ B.take (count - A.length) :=
    List.take_append_eq_append_take
  have hcount : A.length ≤ count := by
    by_contra hlt
    push_neg at hlt
    have hz : count - A.length = 0 := by omega
    rw [hsplit, hz, List.take_zero, List.append_nil] at hi
    exact hA i (List.take_subset _ _ hi) hiT
  intro j hj hjT
  have hjA : j ∈ A := by
    rcases List.mem_append.mp hj with h | h
    · exact h
    · exact absurd (hB j h) hjT
  rw [hsplit, List.take_of_length_le hcount]
  exact List.mem_append_left _ hjA

/-- **C10.**  `_redact_description` orders `masked_word_indices` with the
non-title masked indices (sorted ascending) before all title-derived
indices, every reveal level's revealed set is a prefix of that list, and
therefore any prefix that reveals some title-occurrence word already
contains every non-title masked word — the answer's title words are the
last to be unmasked. -/
theorem masked_word_indices_title_last (shuffle : Nat → List Nat → List Nat)
    (media : Media) :
    (∃ A B,
        (redact_description shuffle media).masked_word_indices = A ++ B ∧
          A.Sorted (· ≤ ·) ∧
          (∀ a ∈ A, a ∉ titleMaskedOf media) ∧
          (∀ b ∈ B, b ∈ titleMaskedOf media)) ∧
      (∀ ratios : List ℚ,
        ∀ s ∈ revealedSets
            (redact_description shuffle media).masked_word_indices ratios,
          ∃ count,
            s = (redact_description shuffle media).masked_word_indices.take
              count) ∧
      ∀ count,
        (∃ i ∈ (redact_description shuffle media).masked_word_indices.take
            count, i ∈ titleMaskedOf media) →
        ∀ j ∈ (redact_description shuffle media).masked_word_indices,
          j ∉ titleMaskedOf media →
          j ∈ (redact_description shuffle media).masked_word_indices.take
            count := by
  have hprefix : ∀ (mwi : List Nat) (ratios : List ℚ),
      ∀ s ∈ revealedSets mwi ratios, ∃ count, s = mwi.take count := by
    intro mwi ratios s hs
    rcases List.mem_map.mp hs with ⟨c, _, rfl⟩
    exact ⟨min c mwi.length, rfl⟩
  have hgen : ∀ masked T : List Nat,
      ∃ A B, orderedMaskedWordIndices masked T = A ++ B ∧
        A.Sorted (· ≤ ·) ∧ (∀ a ∈ A, a ∉ T) ∧ (∀ b ∈ B, b ∈ T) := by
    intro masked T
    refine ⟨additionalIndices masked T, _, rfl,
      List.sorted_insertionSort _ _, ?_, ?_⟩
    · intro a ha
      unfold additionalIndices at ha
      have hmem := List.of_mem_filter ((List.mem_insertionSort _).mp ha)
      simpa using hmem
    · intro b hb
      have hbs := List.mem_filter.mp hb
      exact (List.mem_insertionSort _).mp hbs.1
  have hsep : ∃ A B,
      (redact_description shuffle media).masked_word_indices = A ++ B ∧
        A.Sorted (· ≤ ·) ∧
        (∀ a ∈ A, a ∉ titleMaskedOf media) ∧
        (∀ b ∈ B, b ∈ titleMaskedOf media) := by
    unfold redact_description titleMaskedOf tokensOf wordIndicesOf cleanTextOf
    cases media.description with
    | none =>
      exact ⟨[], [], rfl, List.sorted_nil, by simp, by simp⟩
    | some d =>
      dsimp only
      by_cases hd : d = ""
      · subst hd
        rw [if_pos rfl]
        refine ⟨[], [], rfl, List.sorted_nil, by simp, by simp⟩
      · rw [if_neg hd]
        simp only [redactCore]
        by_cases htok : (tokenize_synopsis (strip_html d)).1 = []
        · rw [if_pos htok]
          rw [htok]
          exact ⟨[], [], rfl, List.sorted_nil, by simp, by simp⟩
        · rw [if_neg htok]
          exact hgen _ _
  refine ⟨hsep, hprefix _, ?_⟩
  obtain ⟨A, B, hAB, _, hA, hB⟩ := hsep
  intro count hex
  rw [hAB] at hex ⊢
  exact take_sep hA hB count hex

/-! ## C5: masking coverage -/

theorem length_filter_partition (l : List Nat) (p : Nat → Bool) :
    (l.filter p).length + (l.filter (fun x => !p x)).length = l.length := by
  induction l with
  | nil => rfl
  | cons x xs ih =>
    by_cases h : p x = true <;>
      simp only [List.filter_cons, h, Bool.not_true, Bool.not_false,
        if_pos, if_neg, List.length_cons] <;> simp [h] <;> omega

/-- With pairwise-fresh, mutually distinct inserts, the insert fold is
just a reversed prepend. -/
theorem foldl_insertNew_fresh (xs : List Nat) :
    ∀ T : List Nat, xs.Nodup → (∀ x ∈ xs, x ∉ T) →
      xs.foldl (fun acc i => insertNew i acc) T = xs.reverse ++ T := by
  induction xs with
  | nil => intro T _ _; rfl
  | cons x xs ih =>
    intro T hnd hdisj
    have hx : x ∉ T := hdisj x (List.mem_cons_self x xs)
    have h1 : insertNew x T = x :: T := by
      unfold insertNew
      rw [if_neg hx]
    simp only [List.foldl_cons, h1, List.reverse_cons, List.append_assoc,
      List.cons_append, List.nil_append]
    exact ih (x :: T) (List.Nodup.of_cons hnd) (by
      intro y hy hyT
      rcases List.mem_cons.mp hyT with heq | hmem
      · exact absurd (heq ▸ hy) (List.nodup_cons.mp hnd).1
      · exact hdisj y (List.mem_cons_of_mem x hy) hmem)

/-- Every title-masked index appears in `masked_word_indices`. -/
theorem title_mem_ordered (masked T : List Nat) :
    ∀ i ∈ T, i ∈ orderedMaskedWordIndices masked T := by
  intro i hi
  unfold orderedMaskedWordIndices
  apply List.mem_append_right
  rw [List.mem_filter]
  refine ⟨(List.mem_insertionSort _).mpr hi, ?_⟩
  unfold additionalIndices
  rw [decide_eq_true_iff]
  intro hmem
  exact absurd hi (by
    simpa using List.of_mem_filter ((List.mem_insertionSort _).mp hmem))

/-- The length of `masked_word_indices` is the mask-set size:
non-title part plus title part. -/
theorem ordered_length (masked T : List Nat) :
    (orderedMaskedWordIndices masked T).length =
      (masked.filter (fun i => i ∉ T)).length + T.length := by
  unfold orderedMaskedWordIndices additionalIndices
  rw [List.length_append]
  congr 1
  · exact ((List.perm_insertionSort _ _).length_eq)
  · have hall : (List.insertionSort (· ≤ ·) T).filter
        (fun i => i ∉ List.insertionSort (· ≤ ·)
          (masked.filter (fun j => j ∉ T))) =
        List.insertionSort (· ≤ ·) T := by
      apply List.filter_eq_self.mpr
      intro a ha
      rw [decide_eq_true_iff]
      intro hmem
      have h1 := List.of_mem_filter ((List.mem_insertionSort _).mp hmem)
      have h2 := (List.mem_insertionSort _).mp ha
      exact absurd h2 (by simpa using h1)
    rw [hall, (List.perm_insertionSort _ _).length_eq]

theorem tokenize_synopsis_snd (t : String) :
    (tokenize_synopsis t).2 =
      ((tokenize_synopsis t).1.enum.filter
        (fun p => isWordToken p.2)).map (fun p => p.1) := rfl

/-- The word-token indices are duplicate-free. -/
theorem wordIndices_nodup (t : String) : (tokenize_synopsis t).2.Nodup := by
  rw [tokenize_synopsis_snd]
  have h1 : ((tokenize_synopsis t).1.enum.map (fun p => p.1)).Nodup := by
    have := List.enum_map_fst (tokenize_synopsis t).1
    have hr : ((tokenize_synopsis t).1.enum.map (fun p => p.1)) =
        List.range (tokenize_synopsis t).1.length := this
    rw [hr]
    exact List.nodup_range _
  have h2 : List.Sublist
      (((tokenize_synopsis t).1.enum.filter
        (fun p => isWordToken p.2)).map (fun p => p.1))
      ((tokenize_synopsis t).1.enum.map (fun p => p.1)) :=
    (List.filter_sublist _).map _
  exact h2.nodup h1

/-- Size of the produced mask list: with a permuting shuffle, the engine
masks exactly `max(title-count, target)` words when the target does not
exceed what title words plus the remaining unmasked words can supply. -/
theorem maskedIndicesOf_size (shuffle : Nat → List Nat → List Nat)
    (mid : Nat) (T wi : List Nat) (target : Nat)
    (hperm : ∀ s l, (shuffle s l).Perm l) (hwiN : wi.Nodup)
    (hneed : target ≤ T.length + (wi.filter (fun i => i ∉ T)).length) :
    (orderedMaskedWordIndices
        (maskedIndicesOf shuffle mid T wi target) T).length =
      max T.length target := by
  have hTnil : ∀ M : List Nat, T.filter (fun i => decide (i ∉ T)) = [] := by
    intro _
    rw [List.filter_eq_nil_iff]
    intro a ha
    simp [ha]
  unfold maskedIndicesOf
  by_cases hlt : T.length < target
  · rw [if_pos hlt]
    by_cases hre : wi.filter (fun i => i ∉ T) = []
    · exfalso
      rw [hre] at hneed
      simp only [List.length_nil, Nat.add_zero] at hneed
      omega
    · rw [if_neg hre]
      have hp : (shuffle mid (wi.filter (fun i => i ∉ T))).Perm
          (wi.filter (fun i => i ∉ T)) := hperm mid _
      have hsn : (shuffle mid (wi.filter (fun i => i ∉ T))).Nodup :=
        hp.nodup_iff.mpr (hwiN.filter _)
      have htakeN : ((shuffle mid (wi.filter (fun i => i ∉ T))).take
          (target - T.length)).Nodup := (List.take_sublist _ _).nodup hsn
      have hfresh : ∀ x ∈ (shuffle mid (wi.filter (fun i => i ∉ T))).take
          (target - T.length), x ∉ T := by
        intro x hx
        have hxr : x ∈ wi.filter (fun i => i ∉ T) :=
          hp.mem_iff.mp (List.take_subset _ _ hx)
        have := List.of_mem_filter hxr
        simpa using this
      rw [foldl_insertNew_fresh _ T htakeN hfresh, ordered_length,
        List.filter_append]
      have h1 : ((shuffle mid (wi.filter (fun i => i ∉ T))).take
            (target - T.length)).reverse.filter (fun i => decide (i ∉ T)) =
          ((shuffle mid (wi.filter (fun i => i ∉ T))).take
            (target - T.length)).reverse := by
        rw [List.filter_eq_self]
        intro a ha
        rw [decide_eq_true_iff]
        exact hfresh a (List.mem_reverse.mp ha)
      rw [h1, hTnil [], List.append_nil, List.length_reverse,
        List.length_take, hp.length_eq]
      have hmin : min (target - T.length)
          (wi.filter (fun i => i ∉ T)).length = target - T.length := by
        omega
      rw [hmin]
      omega
  · rw [if_neg hlt]
    rw [ordered_length, hTnil []]
    simp only [List.length_nil, Nat.zero_add]
    omega

/-- The mask-count target characterised for at least two words. -/
theorem maskedTarget_eq (wc tc : Nat) (hwc : 2 ≤ wc) :
    maskedTarget wc tc =
      if tc < wc then max 1 (min (max (ceil70 wc) tc) (wc - 1)) else wc := by
  unfold maskedTarget
  by_cases h : tc < wc
  · simp only [if_pos h, if_neg (show ¬wc = 1 by omega),
      if_pos (show 1 < wc by omega)]
    omega
  · simp only [if_neg h, if_neg (show ¬wc = 1 by omega),
      if_pos (show 1 < wc by omega)]
    omega

/-- The natural-number formula of `ceil70` is the exact rational ceiling
`⌈wc · 7/10⌉` that models `math.ceil(word_count * 0.7)`. -/
theorem ceil70_eq_ceil (wc : Nat) :
    (ceil70 wc : ℤ) = ⌈(wc : ℚ) * (7 / 10)⌉ := by
  unfold ceil70
  set K := (7 * wc + 9) / 10 with hK
  have hdm := Nat.div_add_mod (7 * wc + 9) 10
  have hmod := Nat.mod_lt (7 * wc + 9) (show 0 < 10 by norm_num)
  have h1 : 10 * K ≤ 7 * wc + 9 := by omega
  have h2 : 7 * wc ≤ 10 * K := by omega
  have h1q : (10 : ℚ) * (K : ℚ) ≤ 7 * (wc : ℚ) + 9 := by exact_mod_cast h1
  have h2q : 7 * (wc : ℚ) ≤ (10 : ℚ) * (K : ℚ) := by exact_mod_cast h2
  have hB : (10 : ℚ) * ((wc : ℚ) * (7 / 10)) = 7 * (wc : ℚ) := by ring
  symm
  rw [Int.ceil_eq_iff]
  constructor
  · push_cast
    linarith
  · push_cast
    linarith

/-- `qmulNat` is multiplication by a natural number cast into `ℚ`. -/
theorem qmulNat_eq (n : Nat) (q : ℚ) : qmulNat n q = (n : ℚ) * q := by
  unfold qmulNat
  rw [Rat.mkRat_eq_div]
  push_cast
  rw [mul_div_assoc, Rat.num_div_den]

/-- **C5 counterexample.**  `"hello world"` with a non-matching title has
two distinct words and an empty title mask, yet only one word is masked:
`1 < 2 = ceil(0.7 × 2)`, so the claimed `ceil(0.7 × wordCount)` lower
bound fails (the keep-one-word-visible cap takes precedence). -/
theorem redact_description_coverage_cex :
    tokensOf mediaHello = ["hello", " ", "world"] ∧
      wordCountOf mediaHello = 2 ∧
      titleMaskedOf mediaHello = [] ∧
      ceil70 2 = 2 ∧
      (redact_description idShuffleNat mediaHello).masked_word_indices.length
        = 1 := by
  decide

/-- **C5 (amended).**  Every word-occurrence of a title variant is in the
final mask.  For a cleaned description of at least two words: when some
word lies outside every title occurrence (with a permuting shuffle), the
mask size is at least `min(ceil(0.7 × wordCount), wordCount − 1)` — the
0.7 floor is capped by the keep-one-word-visible bound, which is the
smaller for word counts 2 and 3 — and stays below `wordCount`; when every
word belongs to a title occurrence, all `wordCount` words are masked and
no word stays visible. -/
theorem redact_description_coverage (shuffle : Nat → List Nat → List Nat)
    (media : Media) (hperm : ∀ s l, (shuffle s l).Perm l) :
    (∀ i ∈ titleMaskedOf media,
        i ∈ (redact_description shuffle media).masked_word_indices) ∧
      (2 ≤ wordCountOf media →
        ((titleMaskedOf media).length < wordCountOf media →
          min (ceil70 (wordCountOf media)) (wordCountOf media - 1) ≤
              (redact_description shuffle media).masked_word_indices.length ∧
            (redact_description shuffle media).masked_word_indices.length <
              wordCountOf media) ∧
          ((titleMaskedOf media).length = wordCountOf media →
            (redact_description shuffle media).masked_word_indices.length =
              wordCountOf media)) := by
  constructor
  · unfold titleMaskedOf redact_description tokensOf wordIndicesOf cleanTextOf
    cases media.description with
    | none =>
      dsimp only
      intro i hi
      have hz : (tokenize_synopsis "").2 = [] := rfl
      rw [hz] at hi
      simp [mask_title_variants] at hi
    | some d =>
      dsimp only
      by_cases hd : d = ""
      · subst hd
        rw [if_pos rfl]
        intro i hi
        have hz : (tokenize_synopsis (strip_html "")).2 = [] := rfl
        rw [hz] at hi
        simp [mask_title_variants] at hi
      · rw [if_neg hd]
        simp only [redactCore]
        by_cases htok : (tokenize_synopsis (strip_html d)).1 = []
        · rw [if_pos htok]
          intro i hi
          have hz : (tokenize_synopsis (strip_html d)).2 = [] := by
            rw [tokenize_synopsis_snd, htok]
            rfl
          rw [hz] at hi
          simp [mask_title_variants] at hi
        · rw [if_neg htok]
          intro i hi
          exact title_mem_ordered _ _ i hi
  · intro hwc
    -- The word count forces the principal branch of `_redact_description`.
    rcases hdesc : media.description with _ | d
    · exfalso
      unfold wordCountOf wordIndicesOf cleanTextOf at hwc
      rw [hdesc] at hwc
      have hz : (tokenize_synopsis "").2 = [] := rfl
      rw [hz] at hwc
      simp at hwc
    · by_cases hd : d = ""
      · exfalso
        subst hd
        unfold wordCountOf wordIndicesOf cleanTextOf at hwc
        rw [hdesc] at hwc
        have hz : (tokenize_synopsis (strip_html "")).2 = [] := rfl
        rw [hz] at hwc
        simp at hwc
      · by_cases htok : (tokenize_synopsis (strip_html d)).1 = []
        · exfalso
          unfold wordCountOf wordIndicesOf cleanTextOf at hwc
          rw [hdesc] at hwc
          have hz : (tokenize_synopsis (strip_html d)).2 = [] := by
            rw [tokenize_synopsis_snd, htok]
            rfl
          rw [hz] at hwc
          simp at hwc
        · -- Principal branch.
          have hT : titleMaskedOf media =
              mask_title_variants (tokenize_synopsis (strip_html d)).1
                (tokenize_synopsis (strip_html d)).2 (title_variants media) := by
            unfold titleMaskedOf tokensOf wordIndicesOf cleanTextOf
            rw [hdesc]
          have hW : wordCountOf media =
              (tokenize_synopsis (strip_html d)).2.length := by
            unfold wordCountOf wordIndicesOf cleanTextOf
            rw [hdesc]
          have hmwi : (redact_description shuffle media).masked_word_indices =
              orderedMaskedWordIndices
                (maskedIndicesOf shuffle media.id
                  (mask_title_variants (tokenize_synopsis (strip_html d)).1
                    (tokenize_synopsis (strip_html d)).2 (title_variants media))
                  (tokenize_synopsis (strip_html d)).2
                  (maskedTarget (tokenize_synopsis (strip_html d)).2.length
                    (mask_title_variants (tokenize_synopsis (strip_html d)).1
                      (tokenize_synopsis (strip_html d)).2
                      (title_variants media)).length))
                (mask_title_variants (tokenize_synopsis (strip_html d)).1
                  (tokenize_synopsis (strip_html d)).2 (title_variants media)) := by
            unfold redact_description
            rw [hdesc]
            dsimp only
            rw [if_neg hd]
            simp only [redactCore]
            rw [if_neg htok]
          rw [hW] at hwc
          rw [hT, hW]
          set T := mask_title_variants (tokenize_synopsis (strip_html d)).1
            (tokenize_synopsis (strip_html d)).2 (title_variants media) with hTdef
          set wi := (tokenize_synopsis (strip_html d)).2 with hwidef
          -- Enough unmasked words remain to meet the target.
          have hpart := length_filter_partition wi (fun i => decide (i ∉ T))
          have hinT : (wi.filter (fun x => !decide (x ∉ T))).length ≤
              T.length := by
            have hnd2 : (wi.filter (fun x => !decide (x ∉ T))).Nodup := by
              rw [hwidef]
              exact (wordIndices_nodup _).filter _
            have hsub : wi.filter (fun x => !decide (x ∉ T)) ⊆ T := by
              intro a ha
              have := List.of_mem_filter ha
              simpa using this
            exact (List.subperm_of_subset hnd2 hsub).length_le
          have htle : maskedTarget wi.length T.length ≤ wi.length := by
            rw [maskedTarget_eq _ _ hwc]
            by_cases h : T.length < wi.length
            · rw [if_pos h]
              omega
            · rw [if_neg h]
          have hneed : maskedTarget wi.length T.length ≤
              T.length + (wi.filter (fun i => i ∉ T)).length := by
            omega
          have hwiN : wi.Nodup := by
            rw [hwidef]
            exact wordIndices_nodup (strip_html d)
          have hsize := maskedIndicesOf_size shuffle media.id T wi
            (maskedTarget wi.length T.length) hperm hwiN hneed
          rw [hmwi, hsize]
          constructor
          · intro hlt
            rw [maskedTarget_eq _ _ hwc, if_pos hlt]
            omega
          · intro heq
            rw [maskedTarget_eq _ _ hwc, if_neg (by omega)]
            omega

theorem redact_description_coverage_witness :
    (∀ i ∈ titleMaskedOf mediaHello,
        i ∈ (redact_description idShuffleNat mediaHello).masked_word_indices) ∧
      (2 ≤ wordCountOf mediaHello →
        ((titleMaskedOf mediaHello).length < wordCountOf mediaHello →
          min (ceil70 (wordCountOf mediaHello)) (wordCountOf mediaHello - 1) ≤
              (redact_description idShuffleNat
                mediaHello).masked_word_indices.length ∧
            (redact_description idShuffleNat
              mediaHello).masked_word_indices.length <
              wordCountOf mediaHello) ∧
          ((titleMaskedOf mediaHello).length = wordCountOf mediaHello →
            (redact_description idShuffleNat
              mediaHello).masked_word_indices.length =
              wordCountOf mediaHello)) :=
  redact_description_coverage idShuffleNat mediaHello
    (fun _ l => List.Perm.refl l)

/-! ## C6: monotone reveal counts and supersets -/

theorem revealCountStep_le_total (total last : Nat) (r : ℚ)
    (_h : last ≤ total) : revealCountStep total last r ≤ total := by
  unfold revealCountStep
  split
  · omega
  · split
    · omega
    · dsimp only
      split <;> omega

theorem revealCountStep_ge (total last : Nat) (r : ℚ) (hle : last ≤ total)
    (hpos : 0 < last → 0 < r) : last ≤ revealCountStep total last r := by
  unfold revealCountStep
  by_cases h0 : r ≤ 0
  · rw [if_pos h0]
    have : last = 0 := by
      by_contra hne
      exact absurd (hpos (Nat.pos_of_ne_zero hne)) (not_lt.mpr h0)
    omega
  · rw [if_neg h0]
    by_cases h1 : 1 ≤ r
    · rw [if_pos h1]
      exact hle
    · rw [if_neg h1]
      dsimp only
      split <;> omega

/-- If the step produced a positive count, the (clamped) ratio was
positive. -/
theorem revealCountStep_pos (total last : Nat) (r : ℚ)
    (h : 0 < revealCountStep total last r) : 0 < r := by
  by_contra h0
  push_neg at h0
  unfold revealCountStep at h
  rw [if_pos h0] at h
  exact absurd h (lt_irrefl 0)

theorem clamp_mono {a b : ℚ} (h : a ≤ b) :
    max 0 (min a 1) ≤ max 0 (min b 1) :=
  max_le_max (le_refl 0) (min_le_min h (le_refl 1))

/-- The reveal counts form an ascending chain bounded by the total, for
ascending ratios. -/
theorem revealCountsAux_chain (total : Nat) :
    ∀ (ratios : List ℚ) (last : Nat), last ≤ total →
      List.Pairwise (· ≤ ·) ratios →
      (0 < last → ∀ r ∈ ratios, 0 < max 0 (min r 1)) →
      List.Chain' (· ≤ ·) (last :: revealCountsAux total last ratios) ∧
        ∀ c ∈ revealCountsAux total last ratios, c ≤ total := by
  intro ratios
  induction ratios with
  | nil =>
    intro last _ _ _
    exact ⟨List.chain'_singleton _, by simp [revealCountsAux]⟩
  | cons r rs ih =>
    intro last hle hpw hpos
    have hc_le : revealCountStep total last (max 0 (min r 1)) ≤ total :=
      revealCountStep_le_total total last _ hle
    have hc_ge : last ≤ revealCountStep total last (max 0 (min r 1)) :=
      revealCountStep_ge total last _ hle
        (fun hl => hpos hl r (List.mem_cons_self r rs))
    have hpos' : 0 < revealCountStep total last (max 0 (min r 1)) →
        ∀ r' ∈ rs, 0 < max 0 (min r' 1) := by
      intro hc r' hr'
      have hr0 : 0 < max 0 (min r 1) := revealCountStep_pos total last _ hc
      have hrr' : r ≤ r' := (List.pairwise_cons.mp hpw).1 r' hr'
      exact lt_of_lt_of_le hr0 (clamp_mono hrr')
    obtain ⟨hch, hbound⟩ := ih (revealCountStep total last (max 0 (min r 1)))
      hc_le (List.Pairwise.of_cons hpw) hpos'
    simp only [revealCountsAux]
    constructor
    · exact List.chain'_cons.mpr ⟨hc_ge, hch⟩
    · intro c hc
      rcases List.mem_cons.mp hc with rfl | hmem
      · exact hc_le
      · exact hbound c hmem

/-- The emitted texts are a subsequence of all the per-count renderings. -/
theorem synopsisLevelsAux_texts_sublist
    (segments : List RedactedSynopsisSegment) (mwi : List Nat) (total : Nat) :
    ∀ (ratios : List ℚ) (last : Nat) (lastText : Option String),
      List.Sublist
        ((synopsisLevelsAux segments mwi total last lastText ratios).map
          (fun h => h.text))
        ((revealCountsAux total last ratios).map
          (fun c => renderLevel segments (mwi.take (min c total)))) := by
  intro ratios
  induction ratios with
  | nil =>
    intro last lastText
    simp [synopsisLevelsAux, revealCountsAux]
  | cons r rs ih =>
    intro last lastText
    simp only [synopsisLevelsAux, revealCountsAux, List.map_cons]
    split
    · exact (ih _ _).cons _
    · simp only [List.map_cons]
      exact (ih _ _).cons₂ _

/-- **C6.**  For a segment list with at least one masked word and an
ascending ratio sequence, the reveal counts computed across the levels are
monotonically non-decreasing, every level's revealed index set (the prefix
of `masked_word_indices` of that level's count) is a superset of the
previous level's, and the emitted hints render a subsequence of those
prefix sets — so each emitted level's revealed set contains the previous
emitted one's. -/
theorem generate_synopsis_levels_monotone
    (segments : List RedactedSynopsisSegment) (mwi : List Nat)
    (ratios : List ℚ) (hmwi : mwi ≠ [])
    (hasc : List.Chain' (· ≤ ·) ratios) :
    List.Chain' (· ≤ ·) (revealCounts mwi.length ratios) ∧
      List.Chain' (fun s t => s ⊆ t) (revealedSets mwi ratios) ∧
      List.Sublist
        ((generate_synopsis_levels segments mwi ratios).map (fun h => h.text))
        ((revealedSets mwi ratios).map (renderLevel segments)) := by
  have hpw : List.Pairwise (· ≤ ·) ratios := List.chain'_iff_pairwise.mp hasc
  obtain ⟨hch, hbound⟩ := revealCountsAux_chain mwi.length ratios 0
    (Nat.zero_le _) hpw (by omega)
  refine ⟨hch.tail, ?_, ?_⟩
  · unfold revealedSets
    apply List.chain'_map_of_chain' (R := (· ≤ ·))
    · intro a b hab
      intro x hx
      have hmin : min a mwi.length ≤ min b mwi.length := by omega
      have heq : mwi.take (min a mwi.length) =
          (mwi.take (min b mwi.length)).take (min a mwi.length) := by
        rw [List.take_take]
        congr 1
        omega
      rw [heq] at hx
      exact List.take_subset _ _ hx
    · exact hch.tail
  · unfold generate_synopsis_levels
    by_cases hseg : segments = []
    · rw [if_pos hseg]
      simp
    · rw [if_neg hseg]
      rw [if_neg (by
        intro hzero
        exact hmwi (List.length_eq_zero.mp hzero))]
      unfold revealedSets revealCounts
      rw [List.map_map]
      exact synopsisLevelsAux_texts_sublist segments mwi mwi.length ratios 0 none

theorem generate_synopsis_levels_monotone_witness :
    List.Chain' (· ≤ ·) (revealCounts ([0] : List Nat).length
        [mkRat 1 5, mkRat 1 2]) ∧
      List.Chain' (fun s t => s ⊆ t)
        (revealedSets [0] [mkRat 1 5, mkRat 1 2]) ∧
      List.Sublist
        ((generate_synopsis_levels segsHiYo [0]
          [mkRat 1 5, mkRat 1 2]).map (fun h => h.text))
        ((revealedSets [0] [mkRat 1 5, mkRat 1 2]).map
          (renderLevel segsHiYo)) :=
  generate_synopsis_levels_monotone segsHiYo [0] [mkRat 1 5, mkRat 1 2]
    (by decide) (List.chain'_pair.mpr (by decide))

/-! ## C7: distinctness of emitted level texts -/

/-- The level loop never emits a hint equal to the previously emitted
text, and consecutive emitted hints differ. -/
theorem synopsisLevelsAux_ne_chain
    (segments : List RedactedSynopsisSegment) (mwi : List Nat) (total : Nat) :
    ∀ (ratios : List ℚ) (last : Nat) (lastText : Option String),
      (∀ h0 ∈ (synopsisLevelsAux segments mwi total last lastText
          ratios).head?, lastText ≠ some h0.text) ∧
        List.Chain' (fun a b => a.text ≠ b.text)
          (synopsisLevelsAux segments mwi total last lastText ratios) := by
  intro ratios
  induction ratios with
  | nil =>
    intro last lastText
    constructor
    · intro h0 hh
      simp [synopsisLevelsAux] at hh
    · simp [synopsisLevelsAux]
  | cons r rs ih =>
    intro last lastText
    simp only [synopsisLevelsAux]
    split
    next heq => exact ih _ _
    next hne =>
      constructor
      · intro h0 hh
        simp only [List.head?_cons, Option.mem_def, Option.some.injEq] at hh
        subst hh
        exact hne
      · apply List.chain'_cons'.mpr
        refine ⟨?_, (ih _ _).2⟩
        intro b hb
        have := (ih (revealCountStep total last (max 0 (min r 1)))
          (some (renderLevel segments
            (mwi.take (min (revealCountStep total last (max 0 (min r 1)))
              total))))).1 b hb
        simpa using this

/-- **C7 counterexample.**  Two failure modes of the as-stated claim:
with one masked word and the (non-monotone) ratio sequence
`[1/2, 0, 1/2]` the emitted texts are `["Hi yo", "[REDACTED] yo",
"Hi yo"]` — the first and third emitted levels carry identical text (the
dedup only compares adjacent levels); and with an empty masked-index list
every level carries the identical base text, including adjacent ones. -/
theorem generate_synopsis_levels_dedup_cex :
    (generate_synopsis_levels segsHiYo [0]
        [mkRat 1 2, 0, mkRat 1 2]).map (fun h => h.text) =
        ["Hi yo", "[REDACTED] yo", "Hi yo"] ∧
      ¬ List.Pairwise (fun a b => a.text ≠ b.text)
        (generate_synopsis_levels segsHiYo [0]
          [mkRat 1 2, 0, mkRat 1 2]) ∧
      (generate_synopsis_levels [⟨"A", false⟩] []
        [mkRat 1 5, mkRat 1 2]).map (fun h => h.text) = ["A", "A"] := by
  refine ⟨by decide, ?_, by decide⟩
  intro hpw
  have h2 : List.Pairwise (· ≠ ·)
      ((generate_synopsis_levels segsHiYo [0]
        [mkRat 1 2, 0, mkRat 1 2]).map (fun h => h.text)) :=
    List.pairwise_map.mpr hpw
  rw [show (generate_synopsis_levels segsHiYo [0]
      [mkRat 1 2, 0, mkRat 1 2]).map (fun h => h.text) =
      ["Hi yo", "[REDACTED] yo", "Hi yo"] from by decide] at h2
  have h3 := (List.pairwise_cons.mp h2).1 "Hi yo" (by simp)
  exact h3 rfl

/-- **C7 (amended).**  When at least one word is masked, a level whose
rendered text equals the previously emitted level's text is skipped, so no
two *consecutive* emitted levels carry identical text; identical text can
recur at non-adjacent positions (under non-monotone ratios), and with no
masked words every level repeats the base text verbatim. -/
theorem generate_synopsis_levels_dedup
    (segments : List RedactedSynopsisSegment) (mwi : List Nat)
    (ratios : List ℚ) (hmwi : mwi ≠ []) :
    List.Chain' (fun a b => a.text ≠ b.text)
      (generate_synopsis_levels segments mwi ratios) := by
  unfold generate_synopsis_levels
  by_cases hseg : segments = []
  · rw [if_pos hseg]
    exact List.chain'_nil
  · rw [if_neg hseg]
    rw [if_neg (by
      intro hzero
      exact hmwi (List.length_eq_zero.mp hzero))]
    exact (synopsisLevelsAux_ne_chain segments mwi mwi.length ratios 0 none).2

theorem generate_synopsis_levels_dedup_witness :
    List.Chain' (fun a b => a.text ≠ b.text)
      (generate_synopsis_levels segsHiYo [0]
        [mkRat 1 2, 0, mkRat 1 2]) :=
  generate_synopsis_levels_dedup segsHiYo [0] [mkRat 1 2, 0, mkRat 1 2]
    (by decide)

/-! ## C4: the character-silhouette builder -/

theorem uniqueByCharId_spec (l : List MediaCharacterEdge) :
    ∀ seen : List Nat,
      ((uniqueByCharId l seen).map (fun e => e.node.id)).Nodup ∧
        ∀ e ∈ uniqueByCharId l seen, e ∈ l ∧ e.node.id ∉ seen := by
  induction l with
  | nil =>
    intro seen
    exact ⟨List.nodup_nil, by simp [uniqueByCharId]⟩
  | cons e es ih =>
    intro seen
    unfold uniqueByCharId
    by_cases hmem : e.node.id ∈ seen
    · rw [if_pos hmem]
      obtain ⟨h1, h2⟩ := ih seen
      exact ⟨h1, fun x hx =>
        ⟨List.mem_cons_of_mem e (h2 x hx).1, (h2 x hx).2⟩⟩
    · rw [if_neg hmem]
      obtain ⟨h1, h2⟩ := ih (e.node.id :: seen)
      constructor
      · rw [List.map_cons, List.nodup_cons]
        refine ⟨?_, h1⟩
        intro hin
        rcases List.mem_map.mp hin with ⟨x, hx, hid⟩
        exact (h2 x hx).2 (hid ▸ List.mem_cons_self _ _)
      · intro x hx
        rcases List.mem_cons.mp hx with rfl | hx'
        · exact ⟨List.mem_cons_self _ _, hmem⟩
        · exact ⟨List.mem_cons_of_mem e (h2 x hx').1,
            fun hc => (h2 x hx').2 (List.mem_cons_of_mem _ hc)⟩

/-- The selected round edges: either too few distinct portrait characters
(empty result), or exactly `count` edges with pairwise-distinct character
ids drawn from the portrait-bearing pool. -/
theorem select_edges_spec
    (cshuffle : Nat → List MediaCharacterEdge → List MediaCharacterEdge)
    (m : Media) (count : Nat)
    (hperm : ∀ s l, (cshuffle s l).Perm l) :
    (select_character_round_edges cshuffle m count = [] ∧
        distinctPortraitCount m < count) ∨
      (((select_character_round_edges cshuffle m count).map
          (fun e => e.node.id)).Nodup ∧
        (select_character_round_edges cshuffle m count).length = count ∧
        ∀ e ∈ select_character_round_edges cshuffle m count,
          e ∈ available_character_edges m) := by
  unfold select_character_round_edges distinctPortraitCount
  by_cases hav : available_character_edges m = []
  · rw [if_pos hav]
    by_cases hc : count = 0
    · right
      subst hc
      exact ⟨List.nodup_nil, rfl, by simp⟩
    · left
      refine ⟨rfl, ?_⟩
      rw [hav]
      simp [uniqueByCharId]
      omega
  · rw [if_neg hav]
    by_cases hlen :
        (uniqueByCharId (available_character_edges m) []).length < count
    · rw [if_pos hlen]
      exact Or.inl ⟨rfl, hlen⟩
    · rw [if_neg hlen]
      right
      obtain ⟨hnodup, hmemspec⟩ :=
        uniqueByCharId_spec (available_character_edges m) []
      have hsortperm : (List.insertionSort
          (fun a b => a.node.id ≤ b.node.id)
          (uniqueByCharId (available_character_edges m) [])).Perm
          (uniqueByCharId (available_character_edges m) []) :=
        List.perm_insertionSort _ _
      have hshufperm : (cshuffle m.id (List.insertionSort
          (fun a b => a.node.id ≤ b.node.id)
          (uniqueByCharId (available_character_edges m) []))).Perm
          (uniqueByCharId (available_character_edges m) []) :=
        (hperm m.id _).trans hsortperm
      have hids : ((cshuffle m.id (List.insertionSort
          (fun a b => a.node.id ≤ b.node.id)
          (uniqueByCharId (available_character_edges m) []))).map
          (fun e => e.node.id)).Nodup :=
        (hshufperm.map (fun e => e.node.id)).nodup_iff.mpr hnodup
      refine ⟨?_, ?_, ?_⟩
      · have hsub : List.Sublist
            (((cshuffle m.id (List.insertionSort
              (fun a b => a.node.id ≤ b.node.id)
              (uniqueByCharId (available_character_edges m) []))).take
                count).map (fun e => e.node.id))
            ((cshuffle m.id (List.insertionSort
              (fun a b => a.node.id ≤ b.node.id)
              (uniqueByCharId (available_character_edges m) []))).map
              (fun e => e.node.id)) :=
          (List.take_sublist _ _).map _
        exact hsub.nodup hids
      · rw [List.length_take, hshufperm.length_eq]
        omega
      · intro e he
        have hin := hshufperm.mem_iff.mp (List.take_subset _ _ he)
        exact (hmemspec e hin).1

/-- An edge that passed the portrait filter builds an entry, and the
entry carries the edge's character id. -/
theorem entryOfEdge_spec {m : Media} {e : MediaCharacterEdge}
    (h : e ∈ available_character_edges m) :
    ∃ ent, entryOfEdge e = some ent ∧ ent.characterId = e.node.id := by
  unfold available_character_edges at h
  have himg := (List.mem_filter.mp h).2
  unfold entryOfEdge
  rcases himage : e.node.image with _ | img
  · rw [himage] at himg
    simp at himg
  · rw [himage] at himg
    dsimp only at himg
    have htr : pyTruthy (pyOr img.large img.medium) = true := by
      unfold pyOr
      by_cases hl : pyTruthy img.large = true
      · rw [if_pos hl]
        exact hl
      · rw [if_neg hl]
        rcases Bool.or_eq_true_iff.mp himg with h' | h'
        · exact absurd h' hl
        · exact h'
    simp only [htr, if_true]
    exact ⟨_, rfl, rfl⟩

theorem buildEntries_spec {m : Media} (edges : List MediaCharacterEdge)
    (h : ∀ e ∈ edges, e ∈ available_character_edges m) :
    ∃ entries, buildEntries edges = some entries ∧
      entries.map (fun en => en.characterId) =
        edges.map (fun e => e.node.id) := by
  induction edges with
  | nil => exact ⟨[], rfl, rfl⟩
  | cons e es ih =>
    obtain ⟨ent, hent, hid⟩ :=
      entryOfEdge_spec (h e (List.mem_cons_self e es))
    obtain ⟨entries, hentries, hids⟩ :=
      ih (fun x hx => h x (List.mem_cons_of_mem e hx))
    refine ⟨ent :: entries, ?_, ?_⟩
    · unfold buildEntries
      rw [hent, hentries]
      rfl
    · rw [List.map_cons, List.map_cons, hid, hids]

/-- The round-slicing loop succeeds on a long-enough selection and its
rounds' character ids are exactly the consumed slice of the selection. -/
theorem buildRoundsAux_spec {m : Media} (selected : List MediaCharacterEdge)
    (hmem : ∀ e ∈ selected, e ∈ available_character_edges m) :
    ∀ (cfgs : List RoundConfig) (idx : Nat),
      idx * 4 + cfgs.length * 4 ≤ selected.length →
      ∃ rounds, buildRoundsAux selected idx cfgs = some rounds ∧
        rounds.flatMap (fun r => r.entries.map (fun en => en.characterId)) =
          (((selected.drop (idx * 4)).take (cfgs.length * 4)).map
            (fun e => e.node.id)) ∧
        ∀ r ∈ rounds, r.entries.length = 4 := by
  intro cfgs
  induction cfgs with
  | nil =>
    intro idx _
    exact ⟨[], rfl, by simp, by simp⟩
  | cons cfg rest ih =>
    intro idx hbound
    simp only [List.length_cons] at hbound
    have hslice : ((selected.drop (idx * 4)).take 4).length = 4 := by
      rw [List.length_take, List.length_drop]
      omega
    obtain ⟨entries, hentries, hids⟩ := buildEntries_spec (m := m)
      ((selected.drop (idx * 4)).take 4)
      (fun e he => hmem e (List.mem_of_mem_drop (List.mem_of_mem_take he)))
    obtain ⟨rounds, hrounds, hflat, hlens⟩ := ih (idx + 1) (by omega)
    refine ⟨⟨cfg.order, cfg.difficulty, entries⟩ :: rounds, ?_, ?_, ?_⟩
    · unfold buildRoundsAux
      rw [if_neg (by omega), hentries, hrounds]
      rfl
    · simp only [List.flatMap_cons, List.length_cons]
      rw [hids, hflat]
      have harith : (idx + 1) * 4 = idx * 4 + 4 := by ring
      rw [harith, ← List.map_append]
      congr 1
      have hdd : selected.drop (idx * 4 + 4) =
          (selected.drop (idx * 4)).drop 4 := by
        rw [List.drop_drop]
      rw [hdd, ← List.take_add]
      congr 1
      omega
    · intro r hr
      rcases List.mem_cons.mp hr with rfl | hr'
      · have := hids
        have hlen2 : entries.length =
            ((selected.drop (idx * 4)).take 4).length := by
          have := congrArg List.length hids
          simpa using this
        simpa [hslice] using hlen2
      · exact hlens r hr'

/-- Every character id occurring in the input list is either already seen
or reported by the first-occurrence filter. -/
theorem uniqueByCharId_covers (l : List MediaCharacterEdge) :
    ∀ seen, ∀ x ∈ l, x.node.id ∈ seen ∨
      x.node.id ∈ (uniqueByCharId l seen).map (fun e => e.node.id) := by
  induction l with
  | nil => simp
  | cons e es ih =>
    intro seen x hx
    unfold uniqueByCharId
    by_cases hmem : e.node.id ∈ seen
    · rw [if_pos hmem]
      rcases List.mem_cons.mp hx with rfl | hx'
      · exact Or.inl hmem
      · exact ih seen x hx'
    · rw [if_neg hmem]
      rcases List.mem_cons.mp hx with rfl | hx'
      · right
        rw [List.map_cons]
        exact List.mem_cons_self _ _
      · rcases ih (e.node.id :: seen) x hx' with h' | h'
        · rcases List.mem_cons.mp h' with heq | hs
          · right
            rw [List.map_cons]
            exact heq ▸ List.mem_cons_self _ _
          · exact Or.inl hs
        · right
          rw [List.map_cons]
          exact List.mem_cons_of_mem _ h'

/-- `build_character_guess_game` with its `let`s and constants unfolded
(`rounds_required = 3`, `total_required = 12`). -/
theorem build_game_unfold
    (cshuffle : Nat → List MediaCharacterEdge → List MediaCharacterEdge)
    (m : Media) :
    build_character_guess_game cshuffle m =
      (if (select_character_round_edges cshuffle m 12).length < 12 then none
       else
        match buildRoundsAux (select_character_round_edges cshuffle m 12) 0
            CHARACTER_GUESS_ROUND_CONFIG with
        | none => none
        | some rounds =>
          match (match rounds.getLast? with
            | some lastR =>
              (match lastR.entries.head? with
               | some e => some e
               | none =>
                 match rounds.head? with
                 | some firstR => firstR.entries.head?
                 | none => none)
            | none => none) with
          | none => none
          | some p =>
            some ⟨choose_answer m, title_variants m, p.characterId, rounds⟩) :=
  rfl

/-- C4, counterexample: `mediaFourChars` offers four distinct
portrait-bearing characters.  The §4.5 tier-escalating allocator
(`build_round_pools`, whose final pass allows within-tier reuse) fills all
three of its rounds for this media item, yet the builder the engine
actually calls reports the game unbuildable — so "unbuildable only when
that final pass still cannot produce four entries" does not describe
`_build_character_guess_game`, which demands twelve distinct characters
and has no escalation or reuse pass. -/
theorem character_game_escalation_cex :
    build_character_guess_game idShuffleEdges mediaFourChars = none ∧
      build_round_pools mediaFourChars [1, 2, 3] ≠ none ∧
      distinctPortraitCount mediaFourChars = 4 := by
  refine ⟨by decide, by decide, by decide⟩

/-- C4 (amended): with any permuting shuffle, the character-silhouette
builder the engine calls succeeds exactly when the media item offers at
least twelve distinct portrait-bearing characters (3 rounds × 4 entries,
no escalation and no reuse pass — the §4.5 allocator is never invoked),
and in every built game the twelve character ids are pairwise distinct: no
character repeats within a round nor across rounds of the same game. -/
theorem character_game_selection
    (cshuffle : Nat → List MediaCharacterEdge → List MediaCharacterEdge)
    (m : Media) (hperm : ∀ s l, (cshuffle s l).Perm l) :
    ((build_character_guess_game cshuffle m).isSome = true ↔
      12 ≤ distinctPortraitCount m) ∧
    ∀ g, build_character_guess_game cshuffle m = some g →
      (gameCharacterIds g).Nodup ∧ (gameCharacterIds g).length = 12 := by
  rcases select_edges_spec cshuffle m 12 hperm with
    ⟨hsel, hshort⟩ | ⟨hnodup, hlen, hmem⟩
  · constructor
    · rw [build_game_unfold, hsel]
      simp only [List.length_nil, Nat.zero_lt_succ, if_true]
      constructor
      · intro h
        simp at h
      · intro h
        omega
    · intro g hg
      rw [build_game_unfold, hsel] at hg
      simp at hg
  · have h12 : 12 ≤ distinctPortraitCount m := by
      have hsub : ((select_character_round_edges cshuffle m 12).map
          (fun e => e.node.id)) ⊆
          ((uniqueByCharId (available_character_edges m) []).map
            (fun e => e.node.id)) := by
        intro i hi
        rcases List.mem_map.mp hi with ⟨e, he, rfl⟩
        rcases uniqueByCharId_covers (available_character_edges m) [] e
            (hmem e he) with h' | h'
        · simp at h'
        · exact h'
      have hle := (List.Nodup.subperm hnodup hsub).length_le
      rw [List.length_map, List.length_map, hlen] at hle
      exact hle
    obtain ⟨rounds, hrounds, hflat, hlens⟩ :=
      buildRoundsAux_spec (m := m) (select_character_round_edges cshuffle m 12)
        hmem CHARACTER_GUESS_ROUND_CONFIG 0 (by rw [hlen]; decide)
    have htake : ((select_character_round_edges cshuffle m 12).drop
        (0 * 4)).take (CHARACTER_GUESS_ROUND_CONFIG.length * 4) =
        select_character_round_edges cshuffle m 12 := by
      rw [Nat.zero_mul, List.drop_zero]
      exact List.take_of_length_le (by rw [hlen]; decide)
    rw [htake] at hflat
    have hrne : rounds ≠ [] := by
      intro hnil
      rw [hnil] at hflat
      have hcl := congrArg List.length hflat
      rw [List.length_map, hlen] at hcl
      simp at hcl
    have hlastS : rounds.getLast?.isSome = true := List.getLast?_isSome.mpr hrne
    rcases Option.isSome_iff_exists.mp hlastS with ⟨lastR, hlast⟩
    have hlmem : lastR ∈ rounds := List.mem_of_mem_getLast? hlast
    have hllen := hlens lastR hlmem
    rcases hhe : lastR.entries with _ | ⟨e0, esR⟩
    · rw [hhe] at hllen
      simp at hllen
    · have hbuild : build_character_guess_game cshuffle m =
          some ⟨choose_answer m, title_variants m, e0.characterId, rounds⟩ := by
        rw [build_game_unfold, if_neg (by rw [hlen]; decide), hrounds]
        simp only [hlast, hhe, List.head?_cons]
      constructor
      · rw [hbuild]
        simp only [Option.isSome_some, true_iff]
        exact h12
      · intro g hg
        rw [hbuild] at hg
        injection hg with hg
        subst hg
        unfold gameCharacterIds
        dsimp only
        rw [hflat]
        refine ⟨hnodup, ?_⟩
        rw [List.length_map, hlen]

/-- C4, witness: a media item with twelve distinct portrait characters is
buildable under the identity permutation. -/
theorem character_game_selection_witness :
    (build_character_guess_game idShuffleEdges mediaBig).isSome = true :=
  (character_game_selection idShuffleEdges mediaBig
    (fun _ l => List.Perm.refl l)).1.mpr (by decide)

/-! ## C3: cross-game media uniqueness -/

theorem insertNew_of_not_mem {x : Nat} {l : List Nat} (h : x ∉ l) :
    insertNew x l = x :: l := by
  unfold insertNew
  rw [if_neg h]

/-- When some pool item avoids both the exclusion and the attempted list,
`_choose_media_from_pool` never reaches its fallback stages: it returns an
item that is fresh with respect to `excluded_ids`. -/
theorem choose_media_fresh (base_seed game_key : String) (pool : List Media)
    (excluded_ids : List Nat) (attempt : Nat)
    (attempted_ids : Option (List Nat))
    (hne : pool.filter (fun m =>
        m.id ∉ excluded_ids &&
          (match attempted_ids with
           | none => true
           | some att => m.id ∉ att)) ≠ []) :
    ∃ m, choose_media_from_pool base_seed game_key pool excluded_ids attempt
        attempted_ids = some m ∧ m ∈ pool ∧ m.id ∉ excluded_ids := by
  have hpool : pool ≠ [] := by
    intro h
    rw [h] at hne
    exact hne rfl
  obtain ⟨m, hm, hmem⟩ :=
    @select_media_total (base_seed ++ ":" ++ game_key ++ ":" ++ toString attempt)
      _ hne
  refine ⟨m, ?_, (List.mem_filter.mp hmem).1, ?_⟩
  · unfold choose_media_from_pool
    rw [if_neg hpool]
    simp only [hne, decide_False, Bool.false_and, Bool.false_eq_true, if_false]
    exact hm
  · have hpred := (List.mem_filter.mp hmem).2
    exact of_decide_eq_true ((Bool.and_eq_true _ _).mp hpred).1

/-- When every pool item is loadable and buildable, the character retry
loop succeeds immediately with a media item fresh w.r.t. `sel`. -/
theorem characterSearch_success (ld : Nat → Media)
    (cshuffle : Nat → List MediaCharacterEdge → List MediaCharacterEdge)
    (base_seed : String) (pool : List Media) (sel : List Nat) (f : Nat)
    (hld : ∀ m ∈ pool, ld m.id = m)
    (hbuild : ∀ m ∈ pool,
      (build_character_guess_game cshuffle m).isSome = true)
    (hne : pool.filter (fun m =>
        m.id ∉ sel &&
          (match (some ([] : List Nat) : Option (List Nat)) with
           | none => true
           | some att => m.id ∉ att)) ≠ []) :
    ∃ cm g, characterSearch ld cshuffle base_seed pool sel (f + 1) 0 [] =
        some (cm, g) ∧ cm ∈ pool ∧ cm.id ∉ sel := by
  obtain ⟨cand, hch, hcP, hcfresh⟩ :=
    choose_media_fresh base_seed "character_silhouette" pool sel 0 (some []) hne
  obtain ⟨g, hg⟩ :=
    Option.isSome_iff_exists.mp (hbuild cand hcP)
  refine ⟨cand, g, ?_, hcP, hcfresh⟩
  unfold characterSearch
  rw [hch]
  dsimp only
  rw [hld cand hcP, hg]

/-- With clips everywhere, a duplicate-free pool and three spare items,
the opening loop returns three distinct rounds avoiding `sel`. -/
theorem openingSearch_spec (ld : Nat → Media) (hasClip : Media → Bool)
    (base_seed : String) (cpool : List Media) (sel : List Nat)
    (hld : ∀ m ∈ cpool, ld m.id = m)
    (hclip : ∀ m ∈ cpool, hasClip m = true)
    (hnodup : (cpool.map Media.id).Nodup)
    (hlen : sel.length + 3 ≤ cpool.length) :
    ∀ (fuel counter : Nat) (attempted roundsAcc : List Nat),
      3 ≤ fuel + roundsAcc.length →
      (∀ a ∈ attempted, a ∈ roundsAcc) →
      roundsAcc.Nodup →
      (∀ i ∈ roundsAcc, i ∉ sel) →
      roundsAcc.length ≤ 3 →
      (openingSearch ld hasClip base_seed cpool sel fuel counter attempted
          roundsAcc).length = 3 ∧
        (openingSearch ld hasClip base_seed cpool sel fuel counter attempted
          roundsAcc).Nodup ∧
        ∀ i ∈ openingSearch ld hasClip base_seed cpool sel fuel counter
          attempted roundsAcc, i ∉ sel := by
  intro fuel
  induction fuel with
  | zero =>
    intro counter attempted roundsAcc hf _ hnd hns hle
    have heq : openingSearch ld hasClip base_seed cpool sel 0 counter
        attempted roundsAcc = roundsAcc := rfl
    rw [heq]
    exact ⟨by omega, hnd, hns⟩
  | succ f ih =>
    intro counter attempted roundsAcc hf hsub hnd hns hle
    by_cases hstop : 3 ≤ roundsAcc.length
    · have heq : openingSearch ld hasClip base_seed cpool sel (f + 1) counter
          attempted roundsAcc = roundsAcc := by
        unfold openingSearch
        rw [if_pos hstop]
      rw [heq]
      exact ⟨by omega, hnd, hns⟩
    · obtain ⟨mf, hmf, hmfn⟩ :=
        @exists_fresh_of_short cpool (sel ++ roundsAcc) hnodup
          (by rw [List.length_append]; omega)
      have hmf2 : mf.id ∉ roundsAcc :=
        fun h => hmfn (List.mem_append.mpr (Or.inr h))
      have hmf3 : mf.id ∉ attempted := fun h => hmf2 (hsub _ h)
      have hneF : cpool.filter (fun m =>
          m.id ∉ (sel ++ roundsAcc) &&
            (match (some attempted : Option (List Nat)) with
             | none => true
             | some att => m.id ∉ att)) ≠ [] :=
        List.ne_nil_of_mem (List.mem_filter.mpr ⟨hmf,
          (Bool.and_eq_true _ _).mpr
            ⟨decide_eq_true hmfn, decide_eq_true hmf3⟩⟩)
      obtain ⟨cand, hch, hcandP, hcandfresh⟩ := choose_media_fresh base_seed
        ("guess_the_opening:" ++ toString roundsAcc.length) cpool
        (sel ++ roundsAcc) counter (some attempted) hneF
      have hc1 : cand.id ∉ sel :=
        fun h => hcandfresh (List.mem_append.mpr (Or.inl h))
      have hc2 : cand.id ∉ roundsAcc :=
        fun h => hcandfresh (List.mem_append.mpr (Or.inr h))
      have hstep : openingSearch ld hasClip base_seed cpool sel (f + 1)
          counter attempted roundsAcc =
          openingSearch ld hasClip base_seed cpool sel f (counter + 1)
            (insertNew cand.id attempted) (roundsAcc ++ [cand.id]) := by
        conv_lhs => unfold openingSearch
        rw [if_neg hstop, hch]
        dsimp only
        rw [hld cand hcandP, if_pos (hclip cand hcandP)]
      rw [hstep]
      refine ih (counter + 1) (insertNew cand.id attempted)
        (roundsAcc ++ [cand.id]) ?_ ?_ ?_ ?_ ?_
      · rw [List.length_append, List.length_singleton]
        omega
      · intro a ha
        rcases mem_insertNew.mp ha with rfl | h'
        · exact List.mem_append.mpr (Or.inr (List.mem_singleton.mpr rfl))
        · exact List.mem_append.mpr (Or.inl (hsub a h'))
      · exact List.Nodup.append hnd (List.nodup_singleton _)
          (fun a ha hb => hc2 ((List.mem_singleton.mp hb) ▸ ha))
      · intro i hi
        rcases List.mem_append.mp hi with h' | h'
        · exact hns i h'
        · rw [List.mem_singleton.mp h']
          exact hc1
      · rw [List.length_append, List.length_singleton]
        omega

/-- C3, counterexample: with a one-item candidate pool the poster slot
silently duplicates the anidle slot through the pool-exhausted final
fallback inside `_choose_media_from_pool` (`filtered = pool`), not through
the character-game fallback (the character game builds from a fresh draw
here): the reuse path of the character game is not the only way two slots
can share a media id. -/
theorem cross_game_uniqueness_cex :
    ((assemble_core ldOne idShuffleEdges (fun _ => true) "2024-01-05" none
        false none [mediaBig] none []).toOption.map
      (fun r => (r.anidleId, r.posterId))) = some (7, 7) := by
  decide

/-- Generic over the base seed and the candidate pool: a duplicate-free
pool of at least seven loadable, buildable, clip-bearing media items
assembles into seven pairwise-distinct slots. -/
theorem cross_game_uniqueness_seeded
    (ld : Nat → Media)
    (cshuffle : Nat → List MediaCharacterEdge → List MediaCharacterEdge)
    (hasClip : Media → Bool) (base_seed : String) (pool : List Media)
    (hnodup : (pool.map Media.id).Nodup)
    (hlen : 7 ≤ pool.length)
    (hld : ∀ m ∈ pool, ld m.id = m)
    (hbuild : ∀ m ∈ pool,
      (build_character_guess_game cshuffle m).isSome = true)
    (hclip : ∀ m ∈ pool, hasClip m = true) :
    ∃ r, assemble_seeded ld cshuffle hasClip base_seed true none pool =
        .ok r ∧
      (slotIds r).Nodup ∧ r.openingEnabled = true := by
  have hfresh : ∀ sel : List Nat, sel.length < 7 →
      pool.filter (fun m =>
        m.id ∉ sel &&
          (match (none : Option (List Nat)) with
           | none => true
           | some att => m.id ∉ att)) ≠ [] := by
    intro sel hsl
    obtain ⟨m, hm, hfr⟩ := @exists_fresh_of_short pool sel hnodup (by omega)
    exact List.ne_nil_of_mem (List.mem_filter.mpr ⟨hm,
      (Bool.and_eq_true _ _).mpr ⟨decide_eq_true hfr, rfl⟩⟩)
  have hfreshA : ∀ sel : List Nat, sel.length < 7 →
      pool.filter (fun m =>
        m.id ∉ sel &&
          (match (some ([] : List Nat) : Option (List Nat)) with
           | none => true
           | some att => m.id ∉ att)) ≠ [] := by
    intro sel hsl
    obtain ⟨m, hm, hfr⟩ := @exists_fresh_of_short pool sel hnodup (by omega)
    exact List.ne_nil_of_mem (List.mem_filter.mpr ⟨hm,
      (Bool.and_eq_true _ _).mpr
        ⟨decide_eq_true hfr, decide_eq_true (List.not_mem_nil _)⟩⟩)
  have hPne : pool ≠ [] := by
    intro h
    rw [h] at hlen
    simp at hlen
  unfold assemble_seeded
  obtain ⟨c1, hch1, hc1P, hc1f⟩ := choose_media_fresh base_seed
    "anidle" pool [] 0 none (hfresh [] (by decide))
  rw [hch1]
  dsimp only
  rw [hld c1 hc1P]
  have hs1 : insertNew c1.id [] = [c1.id] :=
    insertNew_of_not_mem (List.not_mem_nil _)
  rw [hs1]
  obtain ⟨c2, hch2, hc2P, hc2f⟩ := choose_media_fresh base_seed
    "poster_zoomed" pool [c1.id] 0 none
    (hfresh [c1.id] (by simp only [List.length_cons, List.length_nil]; omega))
  rw [hch2]
  dsimp only
  rw [hld c2 hc2P]
  have hs2 : insertNew c2.id [c1.id] = [c2.id, c1.id] :=
    insertNew_of_not_mem hc2f
  rw [hs2]
  obtain ⟨c3, hch3, hc3P, hc3f⟩ := choose_media_fresh base_seed
    "redacted_synopsis" pool [c2.id, c1.id] 0 none
    (hfresh [c2.id, c1.id]
      (by simp only [List.length_cons, List.length_nil]; omega))
  rw [hch3]
  dsimp only
  rw [hld c3 hc3P]
  have hs3 : insertNew c3.id [c2.id, c1.id] = [c3.id, c2.id, c1.id] :=
    insertNew_of_not_mem hc3f
  rw [hs3]
  have hfuel : max pool.length 1 = (pool.length - 1) + 1 := by
    omega
  rw [hfuel]
  obtain ⟨cm, g, hcs, hcmP, hcmf⟩ := characterSearch_success ld cshuffle
    base_seed pool [c3.id, c2.id, c1.id] (pool.length - 1) hld hbuild
    (hfreshA [c3.id, c2.id, c1.id]
      (by simp only [List.length_cons, List.length_nil]; omega))
  rw [hcs]
  dsimp only
  have hs4 : insertNew cm.id [c3.id, c2.id, c1.id] =
      [cm.id, c3.id, c2.id, c1.id] := insertNew_of_not_mem hcmf
  rw [hs4]
  rw [Bool.true_and]
  rw [if_pos (decide_eq_true hPne)]
  obtain ⟨holen, honodup, hosel⟩ := openingSearch_spec ld hasClip base_seed
    pool [cm.id, c3.id, c2.id, c1.id] hld hclip hnodup
    (by simp only [List.length_cons, List.length_nil]; omega)
    (max (pool.length * 3) 9) 0 [] []
    (by simp only [List.length_nil]; omega) (by simp)
    List.nodup_nil (by simp) (by simp)
  rw [if_pos holen, if_pos holen, decide_eq_true holen]
  refine ⟨_, rfl, ?_, rfl⟩
  dsimp only [slotIds, Option.getD]
  have hne21 : c2.id ≠ c1.id :=
    fun h => hc2f (by rw [h]; exact List.mem_singleton.mpr rfl)
  have hne31 : c3.id ≠ c1.id := fun h => hc3f (by rw [h]; simp)
  have hne32 : c3.id ≠ c2.id := fun h => hc3f (by rw [h]; simp)
  have hnem1 : cm.id ≠ c1.id := fun h => hcmf (by rw [h]; simp)
  have hnem2 : cm.id ≠ c2.id := fun h => hcmf (by rw [h]; simp)
  have hnem3 : cm.id ≠ c3.id := fun h => hcmf (by rw [h]; simp)
  refine List.Nodup.append ?_ honodup ?_
  · refine List.nodup_cons.mpr ⟨?_, List.nodup_cons.mpr ⟨?_,
      List.nodup_cons.mpr ⟨?_, List.nodup_singleton _⟩⟩⟩
    · intro h
      rcases List.mem_cons.mp h with h' | h'
      · exact hne21 h'.symm
      rcases List.mem_cons.mp h' with h' | h'
      · exact hne31 h'.symm
      · exact hnem1 (List.mem_singleton.mp h').symm
    · intro h
      rcases List.mem_cons.mp h with h' | h'
      · exact hne32 h'.symm
      · exact hnem2 (List.mem_singleton.mp h').symm
    · intro h
      exact hnem3 (List.mem_singleton.mp h).symm
  · intro a ha hb
    refine hosel a hb ?_
    simp only [List.mem_cons, List.not_mem_nil, or_false] at ha ⊢
    tauto

/-- C3 (amended): when the candidate pool carries at least seven media
items with pairwise-distinct ids, every pool item loads back to itself,
builds a character game and has an opening clip, and no separate opening
pool is supplied, the assembly succeeds with all seven media slots (four
core games and three opening rounds) pairwise distinct: no duplicate
arises on this path, the character-game fallback and the selector's
pool-exhausted fallbacks being unreachable. -/
theorem cross_game_uniqueness
    (ld : Nat → Media)
    (cshuffle : Nat → List MediaCharacterEdge → List MediaCharacterEdge)
    (hasClip : Media → Bool) (day : String) (user : Option Nat)
    (popular : List Media) (userLists : Option MediaListCollection)
    (recentIds : List Nat)
    (hnodup : ((build_candidate_pool popular userLists recentIds).map
      Media.id).Nodup)
    (hlen : 7 ≤ (build_candidate_pool popular userLists recentIds).length)
    (hld : ∀ m ∈ build_candidate_pool popular userLists recentIds,
      ld m.id = m)
    (hbuild : ∀ m ∈ build_candidate_pool popular userLists recentIds,
      (build_character_guess_game cshuffle m).isSome = true)
    (hclip : ∀ m ∈ build_candidate_pool popular userLists recentIds,
      hasClip m = true) :
    ∃ r, assemble_core ld cshuffle hasClip day user true none popular
        userLists recentIds = .ok r ∧
      (slotIds r).Nodup ∧ r.openingEnabled = true := by
  unfold assemble_core
  exact cross_game_uniqueness_seeded ld cshuffle hasClip
    (match user with
     | none => day
     | some uid => day ++ ":" ++ toString uid)
    (build_candidate_pool popular userLists recentIds)
    hnodup hlen hld hbuild hclip

/-! ## C9: the anti-repeat recording contract -/

theorem runRecords_ok (recordOk : Nat → Bool) :
    ∀ l : List Nat, (∀ i ∈ l, recordOk i = true) →
      runRecords recordOk l = .ok () := by
  intro l
  induction l with
  | nil => intro _; rfl
  | cons x xs ih =>
    intro h
    unfold runRecords
    rw [if_pos (h x (List.mem_cons_self _ _))]
    exact ih (fun i hi => h i (List.mem_cons_of_mem _ hi))

theorem runRecords_err (recordOk : Nat → Bool) :
    ∀ l : List Nat, (∃ i ∈ l, recordOk i = false) →
      runRecords recordOk l = .error "recent-media recording failed" := by
  intro l
  induction l with
  | nil =>
    rintro ⟨i, hi, _⟩
    exact absurd hi (List.not_mem_nil _)
  | cons x xs ih =>
    rintro ⟨i, hi, hfalse⟩
    unfold runRecords
    by_cases hx : recordOk x = true
    · rw [if_pos hx]
      refine ih ⟨i, ?_, hfalse⟩
      rcases List.mem_cons.mp hi with rfl | h'
      · rw [hx] at hfalse
        exact Bool.noConfusion hfalse
      · exact h'
    · rw [if_neg hx]

/-- The recorded-ids list of a finished response: duplicate-free, and as a
set exactly the media-id slots of the response. -/
theorem record_shape (a b c d : Nat) (O : List Nat) :
    (if O.length = 3 then
        O.foldl appendNew
          (appendNew (appendNew (appendNew (appendNew [] a) b) c) d)
      else
        appendNew (appendNew (appendNew (appendNew [] a) b) c) d).Nodup ∧
    ∀ i, (i ∈ (if O.length = 3 then
        O.foldl appendNew
          (appendNew (appendNew (appendNew (appendNew [] a) b) c) d)
      else
        appendNew (appendNew (appendNew (appendNew [] a) b) c) d)) ↔
      i ∈ [a, b, c, d] ++ (if O.length = 3 then some O else none).getD [] := by
  have hrec4n :
      (appendNew (appendNew (appendNew (appendNew [] a) b) c) d).Nodup :=
    nodup_appendNew (nodup_appendNew (nodup_appendNew
      (nodup_appendNew List.nodup_nil)))
  have hrec4m : ∀ i,
      i ∈ appendNew (appendNew (appendNew (appendNew [] a) b) c) d ↔
        i ∈ [a, b, c, d] := by
    intro i
    rw [mem_appendNew, mem_appendNew, mem_appendNew, mem_appendNew]
    simp [or_assoc]
  constructor
  · by_cases hO : O.length = 3
    · rw [if_pos hO]
      exact nodup_foldl_appendNew _ _ hrec4n
    · rw [if_neg hO]
      exact hrec4n
  · intro i
    by_cases hO : O.length = 3
    · rw [if_pos hO, if_pos hO]
      rw [mem_foldl_appendNew, List.mem_append, hrec4m i]
      exact Iff.rfl
    · rw [if_neg hO, if_neg hO]
      rw [List.mem_append, hrec4m i]
      simp

/-- Inversion of a successful assembly: the recorded list is exactly the
set of slot ids, without duplicates. -/
theorem assemble_seeded_ok_shape (ld : Nat → Media)
    (cshuffle : Nat → List MediaCharacterEdge → List MediaCharacterEdge)
    (hasClip : Media → Bool) (base_seed : String) (includeOpening : Bool)
    (openingPool : Option (List Media)) (pool : List Media)
    (core : AssembledPuzzle)
    (hok : assemble_seeded ld cshuffle hasClip base_seed includeOpening
      openingPool pool = .ok core) :
    core.recordedIds.Nodup ∧
      ∀ i, i ∈ core.recordedIds ↔ i ∈ slotIds core := by
  unfold assemble_seeded at hok
  rcases h1 : choose_media_from_pool base_seed "anidle" pool [] 0 none with
    _ | c1
  · rw [h1] at hok
    simp at hok
  rw [h1] at hok
  dsimp only at hok
  rcases h2 : choose_media_from_pool base_seed "poster_zoomed" pool
      (insertNew (ld c1.id).id []) 0 none with _ | c2
  · rw [h2] at hok
    simp at hok
  rw [h2] at hok
  dsimp only at hok
  rcases h3 : choose_media_from_pool base_seed "redacted_synopsis" pool
      (insertNew (ld c2.id).id (insertNew (ld c1.id).id [])) 0 none with
    _ | c3
  · rw [h3] at hok
    simp at hok
  rw [h3] at hok
  dsimp only at hok
  rcases h4 : characterSearch ld cshuffle base_seed pool
      (insertNew (ld c3.id).id (insertNew (ld c2.id).id
        (insertNew (ld c1.id).id []))) (max pool.length 1) 0 [] with
    _ | r4
  · rw [h4] at hok
    dsimp only at hok
    rcases h5 : characterFallback cshuffle [ld c1.id, ld c2.id, ld c3.id] with
      _ | r5
    · rw [h5] at hok
      simp at hok
    rcases r5 with ⟨cm, g⟩
    rw [h5] at hok
    dsimp only at hok
    injection hok with hok
    subst hok
    dsimp only [slotIds]
    exact record_shape _ _ _ _ _
  rcases r4 with ⟨cm, g⟩
  rw [h4] at hok
  dsimp only at hok
  injection hok with hok
  subst hok
  dsimp only [slotIds]
  exact record_shape _ _ _ _ _

/-- C3, witness: a seven-item duplicate-free pool of buildable media with
clips everywhere assembles with seven pairwise-distinct slots. -/
theorem cross_game_uniqueness_witness :
    ∃ r, assemble_core ldSeven idShuffleEdges (fun _ => true) "2024-02-01"
        none true none poolSeven none [] = .ok r ∧
      (slotIds r).Nodup ∧ r.openingEnabled = true :=
  cross_game_uniqueness ldSeven idShuffleEdges (fun _ => true) "2024-02-01"
    none poolSeven none [] (by decide) (by decide) (by decide) (by decide)
    (by decide)

/-- C9, counterexample: `_record_recent_media` re-raises its storage
failure (engine.py 931-935) and the recording loop in
`_assemble_daily_puzzle` does not catch it, so a recording failure turns
an already-computed response into an error — it is not "logged but not
allowed to fail the response": the same inputs succeed when recording
succeeds and fail when it fails. -/
theorem recording_failure_cex :
    assemble_daily_puzzle ldOne idShuffleEdges (fun _ => true)
        (fun _ => false) "2024-01-06" (some 9) false none [mediaBig] none [] =
      .error "recent-media recording failed" ∧
      (assemble_daily_puzzle ldOne idShuffleEdges (fun _ => true)
        (fun _ => true) "2024-01-06" (some 9) false none [mediaBig] none []
        ).toOption.isSome = true := by
  constructor
  · decide
  · decide

/-- C9 (amended): for an authenticated user, a failed assembly propagates
its own error with no recording; a successful assembly records each
distinct media id of the response exactly once (the recorded list is
duplicate-free and holds exactly the slot ids, one entry per id even when
slots share a media item); if every record succeeds the response is
returned intact, but if any record fails the error propagates and the
already-computed response is lost — recording failure is not swallowed. -/
theorem recording_contract (ld : Nat → Media)
    (cshuffle : Nat → List MediaCharacterEdge → List MediaCharacterEdge)
    (hasClip : Media → Bool) (recordOk : Nat → Bool) (day : String)
    (uid : Nat) (includeOpening : Bool) (openingPool : Option (List Media))
    (popular : List Media) (userLists : Option MediaListCollection)
    (recentIds : List Nat) :
    (∀ e, assemble_core ld cshuffle hasClip day (some uid) includeOpening
        openingPool popular userLists recentIds = .error e →
      assemble_daily_puzzle ld cshuffle hasClip recordOk day (some uid)
        includeOpening openingPool popular userLists recentIds = .error e) ∧
    ∀ core, assemble_core ld cshuffle hasClip day (some uid) includeOpening
        openingPool popular userLists recentIds = .ok core →
      core.recordedIds.Nodup ∧
        (∀ i, i ∈ core.recordedIds ↔ i ∈ slotIds core) ∧
        ((∀ i ∈ core.recordedIds, recordOk i = true) →
          assemble_daily_puzzle ld cshuffle hasClip recordOk day (some uid)
            includeOpening openingPool popular userLists recentIds =
            .ok core) ∧
        ((∃ i ∈ core.recordedIds, recordOk i = false) →
          assemble_daily_puzzle ld cshuffle hasClip recordOk day (some uid)
            includeOpening openingPool popular userLists recentIds =
            .error "recent-media recording failed") := by
  constructor
  · intro e he
    unfold assemble_daily_puzzle
    rw [he]
  · intro core hok
    have hok' := hok
    unfold assemble_core at hok'
    obtain ⟨hnd, hiff⟩ :=
      assemble_seeded_ok_shape _ _ _ _ _ _ _ _ hok'
    refine ⟨hnd, hiff, ?_, ?_⟩
    · intro hall
      unfold assemble_daily_puzzle
      rw [hok]
      dsimp only
      rw [runRecords_ok recordOk core.recordedIds hall]
    · intro hex
      unfold assemble_daily_puzzle
      rw [hok]
      dsimp only
      rw [runRecords_err recordOk core.recordedIds hex]

/-- C9, witness: an assembly failure (empty popularity pool) propagates
through the daily entry point unchanged. -/
theorem recording_contract_witness :
    assemble_daily_puzzle ldOne idShuffleEdges (fun _ => true)
        (fun _ => true) "2024-01-07" (some 3) false none [] none [] =
      .error "Candidate pool is empty" :=
  (recording_contract ldOne idShuffleEdges (fun _ => true) (fun _ => true)
      "2024-01-07" 3 false none [] none []).1
    "Candidate pool is empty" (by decide)

end GuessSenpai
